import Mathlib

/-!
# LC-3 virtual machine (`vm.cc`): shallow embedding

Machine words (`uint16_t`) are natural numbers; every place where the C++ code
converts an `int` expression back to `uint16_t` is written `u16 _` (reduction
modulo `2^16`).  The global arrays `memory` and `reg`, the local `running` of
`main` and the console are the fields of `State`.
-/

namespace VM

/-! ## Enumerations of `vm.cc` -/

abbrev R_R0 : Nat := 0
abbrev R_R1 : Nat := 1
abbrev R_R2 : Nat := 2
abbrev R_R3 : Nat := 3
abbrev R_R4 : Nat := 4
abbrev R_R5 : Nat := 5
abbrev R_R6 : Nat := 6
abbrev R_R7 : Nat := 7
/-- Program counter. -/
abbrev R_PC : Nat := 8
abbrev R_COND : Nat := 9
abbrev R_COUNT : Nat := 10

/-- P -/
abbrev FL_POS : Nat := 1 <<< 0
/-- Z -/
abbrev FL_ZRO : Nat := 1 <<< 1
/-- N -/
abbrev FL_NEG : Nat := 1 <<< 2

abbrev OP_BR : Nat := 0
abbrev OP_ADD : Nat := 1
abbrev OP_LD : Nat := 2
abbrev OP_ST : Nat := 3
abbrev OP_JSR : Nat := 4
abbrev OP_AND : Nat := 5
abbrev OP_LDR : Nat := 6
abbrev OP_STR : Nat := 7
abbrev OP_RTI : Nat := 8
abbrev OP_NOT : Nat := 9
abbrev OP_LDI : Nat := 10
abbrev OP_STI : Nat := 11
abbrev OP_JMP : Nat := 12
abbrev OP_RES : Nat := 13
abbrev OP_LEA : Nat := 14
abbrev OP_TRAP : Nat := 15

/-- Keyboard status. -/
abbrev MR_KBSR : Nat := 0xFE00
/-- Keyboard data. -/
abbrev MR_KBDR : Nat := 0xFE02

abbrev TRAP_GETC : Nat := 0x20
abbrev TRAP_OUT : Nat := 0x21
abbrev TRAP_PUTS : Nat := 0x22
abbrev TRAP_IN : Nat := 0x23
abbrev TRAP_PUTSP : Nat := 0x24
abbrev TRAP_HALT : Nat := 0x25

abbrev MEMORY_MAX : Nat := 1 <<< 16
abbrev PC_START : Nat := 0x3000

/-- Conversion of an `int` value to `uint16_t`. -/
def u16 (n : Nat) : Nat := n % 65536

/-! ## The console

The host console is outside the program.  Its answers are given by three
streams indexed by the number of input queries made so far, so that every
behaviour of the keyboard is some choice of streams. -/

structure Console where
  /-- Answer of `check_key()` when it is query number `n`. -/
  key : Nat → Bool
  /-- Value of `getchar()` (an `int`) when it is query number `n`. -/
  getc : Nat → Int
  /-- Byte held by `c` after `std::cin >> c` when it is query number `n`. -/
  cin : Nat → Nat
  /-- Number of input queries made so far. -/
  queries : Nat
  /-- Bytes written to `std::cout`, oldest first. -/
  out : List Nat

/-- Function `uint16_t check_key()`: the boolean answer converted to a word. -/
def check_key (c : Console) : Nat × Console :=
  (if c.key c.queries then 1 else 0, { c with queries := c.queries + 1 })

/-- Call of `getchar()`. -/
def getchar (c : Console) : Int × Console :=
  (c.getc c.queries, { c with queries := c.queries + 1 })

/-- Statement `std::cin >> c` for a `char c`: the byte left in `c`. -/
def cin_char (c : Console) : Nat × Console :=
  (c.cin c.queries % 256, { c with queries := c.queries + 1 })

/-- Statement `std::cout << ch` for a `char ch` (the value is narrowed to one byte). -/
def cout_char (ch : Nat) (c : Console) : Console :=
  { c with out := c.out ++ [ch % 256] }

/-- Statement `std::cout << str` for a string literal given by its bytes. -/
def cout_str (str : List Nat) (c : Console) : Console :=
  { c with out := c.out ++ str }

/-- Conversion `(uint16_t)c` for a `char c` holding byte `b` (`char` is signed on the
target platform, so bytes from 128 on are sign-extended). -/
def char_to_u16 (b : Nat) : Nat :=
  if b % 256 < 128 then b % 256 else b % 256 + 0xFF00

/-- The bytes of `"HALT"` followed by `std::endl`. -/
def HALT_MSG : List Nat := [72, 65, 76, 84, 10]

/-- The bytes of `"Enter a character"` followed by `std::endl`. -/
def IN_PROMPT : List Nat :=
  [69, 110, 116, 101, 114, 32, 97, 32, 99, 104, 97, 114, 97, 99, 116, 101, 114, 10]

/-! ## Machine state -/

structure State where
  /-- Array `uint16_t memory[MEMORY_MAX]`. -/
  memory : Nat → Nat
  /-- Array `uint16_t reg[R_COUNT]`. -/
  reg : Nat → Nat
  /-- Variable `int running` of `main`. -/
  running : Nat
  /-- The console. -/
  con : Console

/-- Assignment `reg[r] = v`. -/
def setReg (s : State) (r v : Nat) : State :=
  { s with reg := fun i => if i = r then v else s.reg i }

/-- Function `uint16_t sign_extend(uint16_t x, int bit_count)`. -/
def sign_extend (x : Nat) (bit_count : Nat) : Nat :=
  if (x >>> (bit_count - 1)) &&& 1 ≠ 0 then
    u16 (x ||| (0xFFFF <<< bit_count))
  else
    x

/-- Function `void swap16(uint16_t &x)`: the new value of `x`. -/
def swap16 (x : Nat) : Nat :=
  u16 ((x <<< 8) ||| (x >>> 8))

/-- Function `void update_flags(uint16_t r)`. -/
def update_flags (r : Nat) (s : State) : State :=
  if s.reg r = 0 then
    setReg s R_COND FL_ZRO
  else if s.reg r >>> 15 ≠ 0 then
    setReg s R_COND FL_NEG
  else
    setReg s R_COND FL_POS

/-- Function `void mem_write(uint16_t address, uint16_t val)`. -/
def mem_write (address val : Nat) (s : State) : State :=
  { s with memory := fun a => if a = address then val else s.memory a }

/-- Function `uint16_t mem_read(uint16_t address)`: the value returned and the state
left behind. -/
def mem_read (address : Nat) (s : State) : Nat × State :=
  if address = MR_KBSR then
    if (check_key s.con).1 ≠ 0 then
      let s1 := mem_write MR_KBSR (1 <<< 15) { s with con := (check_key s.con).2 }
      let s2 := mem_write MR_KBDR (Int.toNat ((getchar s1.con).1 % 65536))
        { s1 with con := (getchar s1.con).2 }
      (s2.memory address, s2)
    else
      let s1 := mem_write MR_KBSR 0 { s with con := (check_key s.con).2 }
      (s1.memory address, s1)
  else
    (s.memory address, s)

/-! ## Instruction handlers (the cases of the `switch` in `main`) -/

/-- Handler of `case OP_ADD`. -/
def op_add (instr : Nat) (s : State) : State :=
  let r0 := (instr >>> 9) &&& 0x7
  let r1 := (instr >>> 6) &&& 0x7
  let imm_flag := (instr >>> 5) &&& 0x1
  if imm_flag ≠ 0 then
    let imm5 := sign_extend (instr &&& 0x1F) 5
    update_flags r0 (setReg s r0 (u16 (s.reg r1 + imm5)))
  else
    let r2 := instr &&& 0x7
    update_flags r0 (setReg s r0 (u16 (s.reg r1 + s.reg r2)))

/-- Handler of `case OP_AND`. -/
def op_and (instr : Nat) (s : State) : State :=
  let r0 := (instr >>> 9) &&& 0x7
  let r1 := (instr >>> 6) &&& 0x7
  let mode := (instr >>> 5) &&& 0x1
  if mode ≠ 0 then
    update_flags r0 (setReg s r0 (u16 (s.reg r1 &&& sign_extend (instr &&& 0x1F) 5)))
  else
    let r2 := instr &&& 0x7
    update_flags r0 (setReg s r0 (u16 (s.reg r1 &&& s.reg r2)))

/-- Handler of `case OP_NOT`: `~reg[r1]` narrowed to 16 bits. -/
def op_not (instr : Nat) (s : State) : State :=
  let r0 := (instr >>> 9) &&& 0x7
  let r1 := (instr >>> 6) &&& 0x7
  update_flags r0 (setReg s r0 (u16 (s.reg r1 ^^^ 0xFFFF)))

/-- Handler of `case OP_BR`. -/
def op_br (instr : Nat) (s : State) : State :=
  let offset := sign_extend (instr &&& 0x1FF) 9
  let p := (instr >>> 9) &&& 0x7
  if p &&& s.reg R_COND ≠ 0 then
    setReg s R_PC (u16 (s.reg R_PC + offset))
  else
    s

/-- Handler of `case OP_JMP`. -/
def op_jmp (instr : Nat) (s : State) : State :=
  let baseR := (instr >>> 6) &&& 0x7
  setReg s R_PC (s.reg baseR)

/-- Handler of `case OP_JSR`. -/
def op_jsr (instr : Nat) (s : State) : State :=
  let mode := (instr >>> 11) &&& 0x1
  let s1 := setReg s R_R7 (s.reg R_PC)
  if mode ≠ 0 then
    setReg s1 R_PC (u16 (s1.reg R_PC + sign_extend (instr &&& 0x7FF) 11))
  else
    let baseR := (instr >>> 6) &&& 0x7
    setReg s1 R_PC (s1.reg baseR)

/-- Handler of `case OP_LD`. -/
def op_ld (instr : Nat) (s : State) : State :=
  let r0 := (instr >>> 9) &&& 0x7
  let rd := mem_read (u16 (s.reg R_PC + sign_extend (instr &&& 0x1FF) 9)) s
  update_flags r0 (setReg rd.2 r0 rd.1)

/-- Handler of `case OP_LDI`. -/
def op_ldi (instr : Nat) (s : State) : State :=
  let r0 := (instr >>> 9) &&& 0x7
  let pc9 := sign_extend (instr &&& 0x1FF) 9
  let inner := mem_read (u16 (s.reg R_PC + pc9)) s
  let outer := mem_read inner.1 inner.2
  update_flags r0 (setReg outer.2 r0 outer.1)

/-- Handler of `case OP_LDR`. -/
def op_ldr (instr : Nat) (s : State) : State :=
  let r0 := (instr >>> 9) &&& 0x7
  let baseR := (instr >>> 6) &&& 0x7
  let offset := sign_extend (instr &&& 0x3F) 6
  let rd := mem_read (u16 (s.reg baseR + offset)) s
  update_flags r0 (setReg rd.2 r0 rd.1)

/-- Handler of `case OP_LEA`. -/
def op_lea (instr : Nat) (s : State) : State :=
  let r0 := (instr >>> 9) &&& 0x7
  update_flags r0 (setReg s r0 (u16 (s.reg R_PC + sign_extend (instr &&& 0x1FF) 9)))

/-- Handler of `case OP_ST`. -/
def op_st (instr : Nat) (s : State) : State :=
  let r0 := (instr >>> 9) &&& 0x7
  mem_write (u16 (s.reg R_PC + sign_extend (instr &&& 0x1FF) 9)) (s.reg r0) s

/-- Handler of `case OP_STI`. -/
def op_sti (instr : Nat) (s : State) : State :=
  let r0 := (instr >>> 9) &&& 0x7
  let rd := mem_read (u16 (s.reg R_PC + sign_extend (instr &&& 0x1FF) 9)) s
  mem_write rd.1 (rd.2.reg r0) rd.2

/-- Handler of `case OP_STR`. -/
def op_str (instr : Nat) (s : State) : State :=
  let r0 := (instr >>> 9) &&& 0x7
  let baseR := (instr >>> 6) &&& 0x7
  mem_write (u16 (s.reg baseR + sign_extend (instr &&& 0x3F) 6)) (s.reg r0) s

/-- The loop of `case TRAP_PUTS`.  The pointer `c` is the index `c` into
`memory`; `room` is the number of cells from `c` to the end of the array.  The
second component tells whether the loop ended inside the array (reading the
cell past its end is not defined by the language). -/
def puts_loop (memory : Nat → Nat) : Nat → Nat → Console → Console × Bool
  | 0, _, con => (con, false)
  | room + 1, c, con =>
    if memory c ≠ 0x0000 then
      let curr := memory c
      puts_loop memory room (c + 1) (cout_char curr con)
    else
      (con, true)

/-- The loop of `case TRAP_PUTSP`, with the same conventions as `puts_loop`. -/
def putsp_loop (memory : Nat → Nat) : Nat → Nat → Console → Console × Bool
  | 0, _, con => (con, false)
  | room + 1, c, con =>
    if memory c ≠ 0x0000 then
      let char1 := (memory c &&& 0xFF) % 256
      let char2 := (memory c >>> 8) % 256
      let con1 := cout_char char1 con
      let con2 := if char2 ≠ 0 then cout_char char2 con1 else con1
      putsp_loop memory room (c + 1) con2
    else
      (con, true)

/-- Outcome of one iteration of the loop of `main`. -/
inductive StepResult where
  /-- The iteration ran to its end, leaving this state. -/
  | next (s : State)
  /-- Function `throw std::runtime_error("Bad Instruction")`, in this state. -/
  | bad_instruction (s : State)
  /-- A string trap walked past the end of `memory`, in this state. -/
  | out_of_bounds (s : State)

/-- Handler of `case OP_TRAP`. -/
def op_trap (instr : Nat) (s0 : State) : StepResult :=
  let s := setReg s0 R_R7 (s0.reg R_PC)
  let vec := instr &&& 0xFF
  if vec = TRAP_GETC then
    let rd := cin_char s.con
    StepResult.next (update_flags R_R0 (setReg { s with con := rd.2 } R_R0 (char_to_u16 rd.1)))
  else if vec = TRAP_OUT then
    StepResult.next { s with con := cout_char (s.reg R_R0) s.con }
  else if vec = TRAP_PUTS then
    let r := puts_loop s.memory (MEMORY_MAX - s.reg R_R0) (s.reg R_R0) s.con
    if r.2 then StepResult.next { s with con := r.1 }
    else StepResult.out_of_bounds { s with con := r.1 }
  else if vec = TRAP_IN then
    let con1 := cout_str IN_PROMPT s.con
    let rd := cin_char con1
    let con2 := cout_char 10 (cout_char rd.1 rd.2)
    StepResult.next (update_flags R_R0 (setReg { s with con := con2 } R_R0 (char_to_u16 rd.1)))
  else if vec = TRAP_PUTSP then
    let r := putsp_loop s.memory (MEMORY_MAX - s.reg R_R0) (s.reg R_R0) s.con
    if r.2 then StepResult.next { s with con := r.1 }
    else StepResult.out_of_bounds { s with con := r.1 }
  else if vec = TRAP_HALT then
    StepResult.next { s with con := cout_str HALT_MSG s.con, running := 0 }
  else
    StepResult.next s

/-- The `switch (op)` of `main` on the fetched instruction. -/
def execute (instr : Nat) (s : State) : StepResult :=
  let op := instr >>> 12
  if op = OP_ADD then StepResult.next (op_add instr s)
  else if op = OP_AND then StepResult.next (op_and instr s)
  else if op = OP_NOT then StepResult.next (op_not instr s)
  else if op = OP_BR then StepResult.next (op_br instr s)
  else if op = OP_JMP then StepResult.next (op_jmp instr s)
  else if op = OP_JSR then StepResult.next (op_jsr instr s)
  else if op = OP_LD then StepResult.next (op_ld instr s)
  else if op = OP_LDI then StepResult.next (op_ldi instr s)
  else if op = OP_LDR then StepResult.next (op_ldr instr s)
  else if op = OP_LEA then StepResult.next (op_lea instr s)
  else if op = OP_ST then StepResult.next (op_st instr s)
  else if op = OP_STI then StepResult.next (op_sti instr s)
  else if op = OP_STR then StepResult.next (op_str instr s)
  else if op = OP_TRAP then op_trap instr s
  else StepResult.bad_instruction s

/-- One iteration of `while (running)`: `instr = mem_read(reg[R_PC]++)`, then
the `switch`. -/
def step (s : State) : StepResult :=
  let pc := s.reg R_PC
  let rd := mem_read pc (setReg s R_PC (u16 (pc + 1)))
  execute rd.1 rd.2

/-- The loop `while (running) { ... }` of `main`, cut off after `fuel`
iterations (`none`).  The result is the way the loop ended and the number of
iterations it executed. -/
def run : Nat → State → Option (StepResult × Nat)
  | fuel, s =>
    if s.running = 0 then some (StepResult.next s, 0)
    else
      match fuel with
      | 0 => none
      | fuel + 1 =>
        match step s with
        | StepResult.next s1 => (run fuel s1).map (fun r => (r.1, r.2 + 1))
        | r => some (r, 1)

/-- The state carried by an outcome. -/
def StepResult.state : StepResult → State
  | StepResult.next s => s
  | StepResult.bad_instruction s => s
  | StepResult.out_of_bounds s => s

/-- Whether the iteration ran to its end. -/
def StepResult.completed : StepResult → Bool
  | StepResult.next _ => true
  | StepResult.bad_instruction _ => false
  | StepResult.out_of_bounds _ => false

/-! ## Vocabulary of the specification -/

/-- The word fetched by the next iteration: what `mem_read(reg[R_PC])` returns. -/
def fetched (s : State) : Nat := (mem_read (s.reg R_PC) s).1

/-- The field `bits[hi:lo]` of a word. -/
def bits (w hi lo : Nat) : Nat := w / 2 ^ lo % 2 ^ (hi + 1 - lo)

/-- The 16-bit word obtained by sign-extending the `n`-bit field value `v`. -/
def sext (n v : Nat) : Nat := if v < 2 ^ (n - 1) then v else v + (2 ^ 16 - 2 ^ n)

/-- The signed integer denoted by the low `n` bits of `x` in two's complement. -/
def signed_value (x n : Nat) : Int :=
  if (x % 2 ^ n).testBit (n - 1) then ((x % 2 ^ n : Nat) : Int) - 2 ^ n
  else ((x % 2 ^ n : Nat) : Int)

/-- The 16-bit two's-complement encoding of an integer. -/
def encode16 (i : Int) : Nat := Int.toNat (i % 65536)

/-- The condition flag that belongs to a 16-bit value. -/
def flag_for (v : Nat) : Nat :=
  if v = 0 then FL_ZRO else if 0x8000 ≤ v then FL_NEG else FL_POS

/-- Second operand of ADD/AND for instruction word `w` in state `s`. -/
def operand2 (w : Nat) (s : State) : Nat :=
  if bits w 5 5 = 0 then s.reg (bits w 2 0) else sext 5 (bits w 4 0)

/-- The PC-relative address of the fetched instruction:
(PC + 1 + sign-extended bits[8:0]) mod 2^16. -/
def pc_rel (s : State) : Nat :=
  (s.reg R_PC + 1 + sext 9 (bits (fetched s) 8 0)) % 2 ^ 16

/-- The base+offset address of the fetched instruction:
(register bits[8:6] + sign-extended bits[5:0]) mod 2^16. -/
def base_off (s : State) : Nat :=
  (s.reg (bits (fetched s) 8 6) + sext 6 (bits (fetched s) 5 0)) % 2 ^ 16

/-! ## Example states -/

/-- A console on which no key is ever pending. -/
def quiet : Console :=
  { key := fun _ => false, getc := fun _ => 0, cin := fun _ => 0, queries := 0, out := [] }

/-- A running machine with the given memory cells (all others zero), general
registers `regs`, condition flag `cond` and program counter `pc`. -/
def example_state (cells : List (Nat × Nat)) (regs : List Nat) (cond pc : Nat) : State :=
  { memory := fun a => (cells.lookup a).getD 0
    reg := fun r => if r = R_PC then pc else if r = R_COND then cond else regs.getD r 0
    running := 1
    con := quiet }

/-- Instruction `ADD R2, R0, R1` at 0x3000 with R0 = 2 and R1 = 3. -/
def st_add_reg : State := example_state [(0x3000, 0x1401)] [2, 3] FL_ZRO 0x3000

/-- Instruction `ADD R0, R0, #-1` at 0x3000 with R0 = 0. -/
def st_add_imm : State := example_state [(0x3000, 0x103F)] [0] FL_ZRO 0x3000

/-- Registers R0 = 0, R1 = 0x8000, R2 = 7. -/
def st_flags : State := example_state [] [0, 0x8000, 7] FL_POS 0x3000

/-- Program counter at the keyboard status register, whose cell holds 0x1234;
no key is pending. -/
def st_br_kbsr : State := example_state [(0xFE00, 0x1234)] [] FL_ZRO 0xFE00

/-- Instruction `BRz #2` at 0x3000 (mask 010, offset 2) with the flag ZERO. -/
def st_br_z : State := example_state [(0x3000, 0x0402)] [] FL_ZRO 0x3000

/-- Instruction `BRnp #2` at 0x3000 (the same word with the Z bit cleared from
the mask: mask 101) with the flag ZERO. -/
def st_br_np : State := example_state [(0x3000, 0x0A02)] [] FL_ZRO 0x3000

/-- Instruction `LDI R2, #1` at 0x3000; cell 0x3002 holds the address 0x4000,
whose cell holds 42. -/
def st_ldi : State :=
  example_state [(0x3000, 0xA401), (0x3002, 0x4000), (0x4000, 42)] [] FL_ZRO 0x3000

/-- Instruction `LD R3, #1` at 0xFFFF; the incremented program counter is 0 and
the word read is the one at address 1. -/
def st_ld : State := example_state [(0xFFFF, 0x2601), (1, 0x8001)] [] FL_ZRO 0xFFFF

/-- Instruction `ST R1, #2` at 0x3000 with R1 = 0xBEEF and cell 0x3003 holding 7. -/
def st_st : State := example_state [(0x3000, 0x3202), (0x3003, 7)] [0, 0xBEEF] FL_ZRO 0x3000

/-- Instruction `STI R1, #2` at 0x3000 with R1 = 0xBEEF and cell 0x3003 holding the
address 0x5000. -/
def st_sti : State :=
  example_state [(0x3000, 0xB202), (0x3003, 0x5000)] [0, 0xBEEF] FL_ZRO 0x3000

/-- Instruction `STR R1, R2, #-1` at 0x3000 with R1 = 0xBEEF and R2 = 0. -/
def st_str : State := example_state [(0x3000, 0x72BF)] [0, 0xBEEF, 0] FL_ZRO 0x3000

/-- Instruction `JSR #3` at 0x3000. -/
def st_jsr : State := example_state [(0x3000, 0x4803)] [] FL_ZRO 0x3000

/-- Instruction `JSRR R2` at 0x3000 with R2 = 0x5000. -/
def st_jsrr : State := example_state [(0x3000, 0x4080)] [0, 0, 0x5000] FL_ZRO 0x3000

/-- Instruction `JSRR R7` at 0x3000 with R7 = 0x5000. -/
def st_jsrr7 : State :=
  example_state [(0x3000, 0x41C0)] [0, 0, 0, 0, 0, 0, 0, 0x5000] FL_ZRO 0x3000

/-- The unused opcode RTI (word 0x8000) at 0x3000. -/
def st_rti : State := example_state [(0x3000, 0x8000)] [] FL_ZRO 0x3000

/-- The reserved opcode (word 0xD000) at 0x3000. -/
def st_res : State := example_state [(0x3000, 0xD000)] [] FL_ZRO 0x3000

/-- A TRAP with the unassigned vector 0xFF at 0x3000. -/
def st_trap_ff : State := example_state [(0x3000, 0xF0FF)] [] FL_ZRO 0x3000

/-- Instruction `TRAP x25` (HALT) at 0x3000, followed by `ADD R0, R0, #1`, with
R0 = 9. -/
def st_halt : State := example_state [(0x3000, 0xF025), (0x3001, 0x1021)] [9] FL_POS 0x3000

/-! ## The image loader -/

/-- The input file stream `std::ifstream`: the bytes not yet read and whether
the stream is still good (`(bool)ifs`, false once a read has failed). -/
structure IStream where
  bytes : List Nat
  good : Bool

/-- Call `ifs.read(reinterpret_cast<char *>(p), 2)` on a `uint16_t` holding
`old`, on a little-endian host: the new value of the word and the stream.  The
first byte read becomes the low byte.  A read that finds fewer than two bytes
stores the bytes it found and leaves the stream failed; a read on a failed
stream stores nothing. -/
def read_word (ifs : IStream) (old : Nat) : Nat × IStream :=
  if ifs.good then
    match ifs.bytes with
    | b0 :: b1 :: rest => (b0 % 256 + 256 * (b1 % 256), { bytes := rest, good := true })
    | [b0] => (b0 % 256 + 256 * (old / 256), { bytes := [], good := false })
    | [] => (old, { bytes := [], good := false })
  else
    (old, ifs)

/-- The loop `while (p != max_read && ifs)` of `read_image_file`.  The pointer
`p` is the index `p` into `memory`; `room` is the number of cells from `p` to
`max_read`, so that `p != max_read` is `room ≠ 0`. -/
def read_image_loop : Nat → Nat → IStream → (Nat → Nat) → (Nat → Nat) × IStream
  | 0, _, ifs, memory => (memory, ifs)
  | room + 1, p, ifs, memory =>
    if ifs.good then
      let rd := read_word ifs (memory p)
      read_image_loop room (p + 1) rd.2 (fun a => if a = p then swap16 rd.1 else memory a)
    else
      (memory, ifs)

/-- Function `void read_image_file(std::ifstream &ifs)`: the memory and the
stream it leaves.  The local `origin` starts uninitialised, so the result is
defined only when the first read delivers both of its bytes. -/
def read_image_file (ifs : IStream) (memory : Nat → Nat) : Option ((Nat → Nat) × IStream) :=
  if ifs.good = true ∧ 2 ≤ ifs.bytes.length then
    let rd := read_word ifs 0
    let origin := swap16 rd.1
    let max_read := MEMORY_MAX - 1
    some (read_image_loop (max_read - origin) origin rd.2 memory)
  else
    none

/-- The bytes of a sequence of 16-bit words written big-endian (high byte
first). -/
def be_bytes : List Nat → List Nat
  | [] => []
  | w :: ws => (w / 256) :: (w % 256) :: be_bytes ws

/-- An image file: the origin word followed by the payload words, big-endian,
on a freshly opened stream. -/
def image_file (o : Nat) (ws : List Nat) : IStream :=
  { bytes := be_bytes (o :: ws), good := true }

/-- The character waiting on the keyboard, if any: the code that `getchar()`
delivers (as stored in a 16-bit cell) when `check_key()` answers true. -/
def pending_char (c : Console) : Option Nat :=
  if c.key c.queries = true then some (Int.toNat (c.getc (c.queries + 1) % 65536)) else none

/-- Reference definition of `mem_read`, after the specification: the value
returned and the memory left, given the memory before and the pending
character.  An address other than KBSR is a plain read; at KBSR with no pending
key the register is cleared to 0; at KBSR with a pending character `c` the
register is set to 0x8000 and KBDR to the code of `c`; the value returned is the
one then stored at the address. -/
def mem_read_ref (address : Nat) (pending : Option Nat) (memory : Nat → Nat) :
    Nat × (Nat → Nat) :=
  if address = MR_KBSR then
    match pending with
    | none => (0, fun a => if a = MR_KBSR then 0 else memory a)
    | some c =>
      (0x8000, fun a => if a = MR_KBDR then c else if a = MR_KBSR then 0x8000 else memory a)
  else
    (memory address, memory)

/-- A console on which the key `A` (code 65) is pending. -/
def key_a : Console :=
  { key := fun _ => true, getc := fun _ => 65, cin := fun _ => 0, queries := 0, out := [] }

/-- A machine whose keyboard registers hold old values (KBSR = 0x1234,
KBDR = 0x5678), with no key pending. -/
def st_kbd_idle : State := example_state [(0xFE00, 0x1234), (0xFE02, 0x5678)] [] FL_ZRO 0x3000

/-- The same machine with the key `A` pending. -/
def st_kbd_key : State := { st_kbd_idle with con := key_a }

/-- A well-formed value of the condition register: exactly one of the three
flags. -/
def flag_ok (c : Nat) : Prop := c = FL_POS ∨ c = FL_ZRO ∨ c = FL_NEG

/-- The states reachable from an initial state of `main` (program counter
`PC_START`, flag ZERO, everything else arbitrary) by completed iterations. -/
inductive Reachable : State → Prop where
  | start (s : State) : s.reg R_PC = PC_START → s.reg R_COND = FL_ZRO → Reachable s
  | next (s s1 : State) : Reachable s → step s = StepResult.next s1 → Reachable s1

/-- The characters one word contributes to a PUTSP string: its low byte, then
its high byte if that is nonzero. -/
def packed_chars (w : Nat) : List Nat :=
  if w / 256 % 256 ≠ 0 then [w % 256, w / 256 % 256] else [w % 256]

/-- Instruction `TRAP x22` (PUTS) at 0x3000 with R0 = 0x4000 pointing to the
words 0x0148 (low byte `H`), 0x0069 (`i`), 0. -/
def st_puts : State :=
  example_state [(0x3000, 0xF022), (0x4000, 0x0148), (0x4001, 0x0069)] [0x4000] FL_NEG 0x3000

/-- Instruction `TRAP x24` (PUTSP) at 0x3000 with R0 = 0x4000 pointing to the
words 0x6948 (`H`, `i`), 0x0021 (`!`), 0. -/
def st_putsp : State :=
  example_state [(0x3000, 0xF024), (0x4000, 0x6948), (0x4001, 0x0021)] [0x4000] FL_NEG 0x3000

/-- Instruction `TRAP x24` (PUTSP) at 0x3000 with R0 = 0x4000 pointing to the
words 0x4100 (low byte zero, high byte `A`), 0x0042 (`B`), 0. -/
def st_putsp_low0 : State :=
  example_state [(0x3000, 0xF024), (0x4000, 0x4100), (0x4001, 0x0042)] [0x4000] FL_NEG 0x3000

/-- Instruction `JMP R2` at 0x3000 with R2 = 0x5000 and the flag NEGATIVE. -/
def st_jmp : State := example_state [(0x3000, 0xC080)] [0, 0, 0x5000] FL_NEG 0x3000

/-- Instruction `TRAP x21` (OUT) at 0x3000 with R0 = 0x41 and the flag
NEGATIVE. -/
def st_out : State := example_state [(0x3000, 0xF021)] [0x41] FL_NEG 0x3000

/-! ## Decoding lemmas -/

theorem and_7 (x : Nat) : x &&& 0x7 = x % 8 := Nat.and_pow_two_sub_one_eq_mod x 3
theorem and_1F (x : Nat) : x &&& 0x1F = x % 32 := Nat.and_pow_two_sub_one_eq_mod x 5
theorem and_3F (x : Nat) : x &&& 0x3F = x % 64 := Nat.and_pow_two_sub_one_eq_mod x 6
theorem and_FF (x : Nat) : x &&& 0xFF = x % 256 := Nat.and_pow_two_sub_one_eq_mod x 8
theorem and_1FF (x : Nat) : x &&& 0x1FF = x % 512 := Nat.and_pow_two_sub_one_eq_mod x 9
theorem and_7FF (x : Nat) : x &&& 0x7FF = x % 2048 := Nat.and_pow_two_sub_one_eq_mod x 11

theorem field_11_9 (w : Nat) : (w >>> 9) &&& 0x7 = bits w 11 9 := by
  simp [bits, and_7, Nat.shiftRight_eq_div_pow]

theorem field_8_6 (w : Nat) : (w >>> 6) &&& 0x7 = bits w 8 6 := by
  simp [bits, and_7, Nat.shiftRight_eq_div_pow]

theorem field_2_0 (w : Nat) : w &&& 0x7 = bits w 2 0 := by
  simp [bits, and_7]

theorem field_5_5 (w : Nat) : (w >>> 5) &&& 0x1 = bits w 5 5 := by
  simp [bits, Nat.shiftRight_eq_div_pow]

theorem field_11_11 (w : Nat) : (w >>> 11) &&& 0x1 = bits w 11 11 := by
  simp [bits, Nat.shiftRight_eq_div_pow]

theorem field_7_0 (w : Nat) : w &&& 0xFF = bits w 7 0 := by
  simp [bits, and_FF]

theorem bits_lt (w hi lo : Nat) : bits w hi lo < 2 ^ (hi + 1 - lo) :=
  Nat.mod_lt _ (Nat.two_pow_pos _)

/-! ## Sign extension -/

theorem lor_shift_high (x bc : Nat) (hx : x < 2 ^ bc) :
    x ||| (0xFFFF <<< bc) = 2 ^ bc * 0xFFFF + x := by
  rw [Nat.shiftLeft_eq, Nat.mul_comm, Nat.lor_comm, ← Nat.mul_add_lt_is_or hx]

theorem sign_extend_eq (bc x : Nat) (h1 : 1 ≤ bc) (h2 : bc ≤ 15) (hx : x < 2 ^ bc) :
    sign_extend x bc = if 2 ^ (bc - 1) ≤ x then x + (2 ^ 16 - 2 ^ bc) else x := by
  unfold sign_extend u16
  rw [lor_shift_high x bc hx, Nat.shiftRight_eq_div_pow, Nat.and_one_is_mod]
  interval_cases bc <;> simp at hx ⊢ <;> split <;> split <;> omega

theorem sign_extend_sext (bc x : Nat) (h1 : 1 ≤ bc) (h2 : bc ≤ 15) (hx : x < 2 ^ bc) :
    sign_extend x bc = sext bc x := by
  rw [sign_extend_eq bc x h1 h2 hx, sext]
  split <;> split <;> omega

theorem testBit_top (bc x : Nat) (h1 : 1 ≤ bc) (h2 : bc ≤ 15) (hx : x < 2 ^ bc) :
    x.testBit (bc - 1) = decide (2 ^ (bc - 1) ≤ x) := by
  rw [Nat.testBit_to_div_mod]
  interval_cases bc <;> simp at hx ⊢ <;> omega

theorem imm5_eq (w : Nat) : sign_extend (w &&& 0x1F) 5 = sext 5 (bits w 4 0) := by
  have h : w &&& 0x1F = bits w 4 0 := by simp [bits, and_1F]
  rw [h]
  exact sign_extend_sext 5 _ (by omega) (by omega) (bits_lt w 4 0)

theorem off6_eq (w : Nat) : sign_extend (w &&& 0x3F) 6 = sext 6 (bits w 5 0) := by
  have h : w &&& 0x3F = bits w 5 0 := by simp [bits, and_3F]
  rw [h]
  exact sign_extend_sext 6 _ (by omega) (by omega) (bits_lt w 5 0)

theorem off9_eq (w : Nat) : sign_extend (w &&& 0x1FF) 9 = sext 9 (bits w 8 0) := by
  have h : w &&& 0x1FF = bits w 8 0 := by simp [bits, and_1FF]
  rw [h]
  exact sign_extend_sext 9 _ (by omega) (by omega) (bits_lt w 8 0)

theorem off11_eq (w : Nat) : sign_extend (w &&& 0x7FF) 11 = sext 11 (bits w 10 0) := by
  have h : w &&& 0x7FF = bits w 10 0 := by simp [bits, and_7FF]
  rw [h]
  exact sign_extend_sext 11 _ (by omega) (by omega) (bits_lt w 10 0)

/-- C2. For `bit_count` in 1..15 and `x < 2 ^ bit_count`, `sign_extend x bit_count`
is `x` when bit `bit_count - 1` of `x` is 0 and `x + (2^16 - 2^bit_count)` when it
is 1; this is the 16-bit two's-complement encoding of the signed integer the low
`bit_count` bits of `x` denote. -/
theorem sign_extend_twos_complement (bit_count x : Nat)
    (h1 : 1 ≤ bit_count) (h2 : bit_count ≤ 15) (hx : x < 2 ^ bit_count) :
    sign_extend x bit_count
        = (if x.testBit (bit_count - 1) then x + (2 ^ 16 - 2 ^ bit_count) else x)
      ∧ sign_extend x bit_count = encode16 (signed_value x bit_count)
      ∧ sign_extend x bit_count < 2 ^ 16 := by
  have hs := sign_extend_eq bit_count x h1 h2 hx
  have ht := testBit_top bit_count x h1 h2 hx
  have hm : x % 2 ^ bit_count = x := Nat.mod_eq_of_lt hx
  refine ⟨?_, ?_, ?_⟩
  · rw [hs, ht]; simp
  · rw [hs, signed_value, encode16, hm, ht]
    interval_cases bit_count <;> simp at hx ⊢ <;> split <;> omega
  · rw [hs]
    interval_cases bit_count <;> simp at hx ⊢ <;> split <;> omega

/-- The two values of C2: `sign_extend(0b11111, 5) = 0xFFFF` and
`sign_extend(0b01111, 5) = 0x000F`, by the general statement. -/
theorem sign_extend_twos_complement_witness :
    (1 ≤ 5 ∧ 5 ≤ 15 ∧ 0b11111 < 2 ^ 5 ∧ 0b01111 < 2 ^ 5)
      ∧ sign_extend 0b11111 5 = 0xFFFF ∧ sign_extend 0b01111 5 = 0x000F := by
  refine ⟨by decide, ?_, ?_⟩
  · exact (sign_extend_twos_complement 5 0b11111 (by decide) (by decide) (by decide)).1.trans
      (by decide)
  · exact (sign_extend_twos_complement 5 0b01111 (by decide) (by decide) (by decide)).1.trans
      (by decide)

/-! ## Registers, flags and memory access -/

@[simp] theorem setReg_reg (s : State) (r v i : Nat) :
    (setReg s r v).reg i = if i = r then v else s.reg i := rfl

@[simp] theorem setReg_memory (s : State) (r v : Nat) : (setReg s r v).memory = s.memory := rfl

@[simp] theorem setReg_con (s : State) (r v : Nat) : (setReg s r v).con = s.con := rfl

@[simp] theorem setReg_running (s : State) (r v : Nat) :
    (setReg s r v).running = s.running := rfl

@[simp] theorem FL_POS_eq : FL_POS = 1 := rfl

@[simp] theorem FL_ZRO_eq : FL_ZRO = 2 := rfl

@[simp] theorem FL_NEG_eq : FL_NEG = 4 := rfl

theorem shiftRight_15_ne_zero (v : Nat) : v >>> 15 ≠ 0 ↔ 0x8000 ≤ v := by
  rw [Nat.shiftRight_eq_div_pow]
  constructor
  · intro h
    by_contra hlt
    exact h (Nat.div_eq_of_lt (by simpa using hlt))
  · intro h h0
    have := (Nat.div_eq_zero_iff (by norm_num : 0 < 2 ^ 15)).1 h0
    norm_num at this
    omega

theorem update_flags_eq (r : Nat) (s : State) :
    update_flags r s = setReg s R_COND (flag_for (s.reg r)) := by
  unfold update_flags flag_for
  by_cases h0 : s.reg r = 0
  · simp [h0]
  · by_cases h1 : 0x8000 ≤ s.reg r
    · have := (shiftRight_15_ne_zero (s.reg r)).2 h1
      simp only [h0, if_false, this, h1, if_true, ne_eq, not_false_eq_true]
    · have h2 : ¬ (s.reg r >>> 15 ≠ 0) := fun h => h1 ((shiftRight_15_ne_zero _).1 h)
      simp only [h0, if_false, h2, h1]

theorem flag_for_cases (v : Nat) :
    flag_for v = FL_POS ∨ flag_for v = FL_ZRO ∨ flag_for v = FL_NEG := by
  unfold flag_for
  split
  · exact Or.inr (Or.inl rfl)
  · split
    · exact Or.inr (Or.inr rfl)
    · exact Or.inl rfl

theorem testBit_15 (v : Nat) (hv : v < 65536) : v.testBit 15 = decide (0x8000 ≤ v) := by
  rw [Nat.testBit_to_div_mod]
  simp
  omega

/-- C3. For every register index `r` (in particular 0..7) holding a 16-bit value,
after `update_flags(r)` the condition register holds one of the three flag
values: ZERO (2) if register `r` is 0, NEGATIVE (4) if bit 15 of register `r` is
set, POSITIVE (1) otherwise; no general register, not the program counter and
no memory cell is changed. -/
theorem update_flags_spec (r : Nat) (s : State) (hr : r < 8) (hv : s.reg r < 65536) :
    ((update_flags r s).reg R_COND = FL_POS ∨ (update_flags r s).reg R_COND = FL_ZRO
        ∨ (update_flags r s).reg R_COND = FL_NEG)
      ∧ (s.reg r = 0 → (update_flags r s).reg R_COND = 2)
      ∧ ((s.reg r).testBit 15 = true → (update_flags r s).reg R_COND = 4)
      ∧ (s.reg r ≠ 0 → (s.reg r).testBit 15 = false → (update_flags r s).reg R_COND = 1)
      ∧ (∀ i, i < 8 → (update_flags r s).reg i = s.reg i)
      ∧ (update_flags r s).reg R_PC = s.reg R_PC
      ∧ (update_flags r s).memory = s.memory := by
  have hr9 : r ≠ R_COND := by simp only [R_COND]; omega
  rw [update_flags_eq, testBit_15 _ hv]
  refine ⟨by simpa using flag_for_cases (s.reg r), ?_, ?_, ?_, ?_, ?_, rfl⟩
  · intro h; simp [flag_for, h]
  · intro h
    have h1 : 0x8000 ≤ s.reg r := by simpa using h
    have h0 : s.reg r ≠ 0 := by omega
    simp [flag_for, h0, h1]
  · intro h0 h
    have h1 : ¬ 0x8000 ≤ s.reg r := by simpa using h
    simp [flag_for, h0, h1]
  · intro i hi
    have : i ≠ R_COND := by simp only [R_COND]; omega
    simp [this]
  · simp

/-- Instances of C3 at registers holding 0, 0x8000 and 7. -/
theorem update_flags_spec_witness :
    (0 < 8 ∧ st_flags.reg 0 < 65536 ∧ 1 < 8 ∧ st_flags.reg 1 < 65536
        ∧ 2 < 8 ∧ st_flags.reg 2 < 65536)
      ∧ (update_flags 0 st_flags).reg R_COND = 2
      ∧ (update_flags 1 st_flags).reg R_COND = 4
      ∧ (update_flags 2 st_flags).reg R_COND = 1 :=
  ⟨by decide,
   (update_flags_spec 0 st_flags (by decide) (by decide)).2.1 (by decide),
   (update_flags_spec 1 st_flags (by decide) (by decide)).2.2.1 (by decide),
   (update_flags_spec 2 st_flags (by decide) (by decide)).2.2.2.1 (by decide) (by decide)⟩

/-! ## Memory reads and the fetch -/

theorem mem_read_of_ne (a : Nat) (s : State) (h : a ≠ MR_KBSR) :
    mem_read a s = (s.memory a, s) := by
  simp [mem_read, h]

theorem mem_read_kbsr_fst (s : State) :
    (mem_read MR_KBSR s).1 = if s.con.key s.con.queries = true then 0x8000 else 0 := by
  by_cases h : s.con.key s.con.queries = true <;> simp [mem_read, check_key, mem_write, h]

@[simp] theorem mem_read_reg (a : Nat) (s : State) : (mem_read a s).2.reg = s.reg := by
  unfold mem_read
  split
  · split <;> rfl
  · rfl

@[simp] theorem mem_read_running (a : Nat) (s : State) :
    (mem_read a s).2.running = s.running := by
  unfold mem_read
  split
  · split <;> rfl
  · rfl

theorem mem_read_setReg (a : Nat) (s : State) (r v : Nat) :
    mem_read a (setReg s r v) = ((mem_read a s).1, setReg (mem_read a s).2 r v) := by
  by_cases ha : a = MR_KBSR
  · by_cases hk : (check_key s.con).1 = 0
    · simp only [mem_read, ha, hk, setReg_con, if_true, ne_eq, not_true_eq_false, if_false]
      rfl
    · simp only [mem_read, ha, hk, setReg_con, if_true, ne_eq, not_false_eq_true]
      rfl
  · simp only [mem_read, ha, if_false]
    rfl

/-- The iteration in terms of the fetched word. -/
theorem step_eq (s : State) :
    step s = execute (fetched s)
      (setReg (mem_read (s.reg R_PC) s).2 R_PC (u16 (s.reg R_PC + 1))) := by
  simp only [step, mem_read_setReg, fetched]

/-- Only the words 0x8000 and 0 can be fetched from the keyboard status
register, so a word with another opcode was fetched elsewhere. -/
theorem pc_ne_kbsr (s : State) (h0 : fetched s >>> 12 ≠ OP_BR)
    (h8 : fetched s >>> 12 ≠ OP_RTI) : s.reg R_PC ≠ MR_KBSR := by
  intro h
  have hf : fetched s = if s.con.key s.con.queries = true then 0x8000 else 0 := by
    rw [fetched, h]; exact mem_read_kbsr_fst s
  by_cases hk : s.con.key s.con.queries = true
  · rw [hf, if_pos hk] at h8; exact h8 (by decide)
  · rw [hf, if_neg hk] at h0; exact h0 (by decide)

/-- A word whose opcode is neither BR nor RTI is fetched without side effect. -/
theorem step_plain (s : State) (h0 : fetched s >>> 12 ≠ OP_BR)
    (h8 : fetched s >>> 12 ≠ OP_RTI) :
    step s = execute (fetched s) (setReg s R_PC (u16 (s.reg R_PC + 1)))
      ∧ fetched s = s.memory (s.reg R_PC) := by
  have hpc := pc_ne_kbsr s h0 h8
  rw [step_eq, fetched, mem_read_of_ne _ _ hpc]
  exact ⟨rfl, rfl⟩

/-! ## ADD and AND -/

theorem bits_11_9_lt (w : Nat) : bits w 11 9 < 8 := bits_lt w 11 9

theorem bits_8_6_lt (w : Nat) : bits w 8 6 < 8 := bits_lt w 8 6

theorem bits_2_0_lt (w : Nat) : bits w 2 0 < 8 := bits_lt w 2 0

theorem op_add_eq (w : Nat) (s : State) :
    op_add w s = update_flags (bits w 11 9)
      (setReg s (bits w 11 9) (u16 (s.reg (bits w 8 6) + operand2 w s))) := by
  simp only [op_add, operand2, field_11_9, field_8_6, field_5_5, imm5_eq]
  simp only [field_2_0]
  by_cases h : bits w 5 5 = 0 <;> simp [h]

theorem op_and_eq (w : Nat) (s : State) :
    op_and w s = update_flags (bits w 11 9)
      (setReg s (bits w 11 9) (u16 (s.reg (bits w 8 6) &&& operand2 w s))) := by
  simp only [op_and, operand2, field_11_9, field_8_6, field_5_5, imm5_eq]
  simp only [field_2_0]
  by_cases h : bits w 5 5 = 0 <;> simp [h]

/-- The operands of ADD/AND are general registers, which the fetch leaves alone. -/
theorem operand2_setReg_pc (w : Nat) (s : State) (v : Nat) :
    operand2 w (setReg s R_PC v) = operand2 w s := by
  have := bits_2_0_lt w
  have h : bits w 2 0 ≠ R_PC := by simp only [R_PC]; omega
  simp [operand2, h]

/-- What an ALU-style handler leaves behind: the destination written, the
flag set from it, everything else as after the fetch. -/
theorem alu_frame (s : State) (d v : Nat) (hd : d < 8) :
    (update_flags d (setReg (setReg s R_PC (u16 (s.reg R_PC + 1))) d v)).reg d = v
      ∧ (update_flags d (setReg (setReg s R_PC (u16 (s.reg R_PC + 1))) d v)).reg R_COND
          = flag_for v
      ∧ (update_flags d (setReg (setReg s R_PC (u16 (s.reg R_PC + 1))) d v)).reg R_PC
          = (s.reg R_PC + 1) % 2 ^ 16
      ∧ (∀ r, r < 8 → r ≠ d →
          (update_flags d (setReg (setReg s R_PC (u16 (s.reg R_PC + 1))) d v)).reg r = s.reg r)
      ∧ (update_flags d (setReg (setReg s R_PC (u16 (s.reg R_PC + 1))) d v)).memory
          = s.memory := by
  have h9 : d ≠ R_COND := by simp only [R_COND]; omega
  have h8 : d ≠ R_PC := by simp only [R_PC]; omega
  rw [update_flags_eq]
  refine ⟨by simp [h9], by simp, ?_, ?_, rfl⟩
  · have : R_PC ≠ d := fun h => h8 h.symm
    simp [this, u16]
  · intro r hr hrd
    have h1 : r ≠ R_COND := by simp only [R_COND]; omega
    have h2 : r ≠ R_PC := by simp only [R_PC]; omega
    simp [h1, h2, hrd]

/-- C1. When the fetched word has opcode ADD (0001) or AND (0101), with
DR = bits[11:9] and SR1 = bits[8:6]: the step completes, register DR is
(old SR1 + operand2) mod 2^16 for ADD and (old SR1 and operand2) mod 2^16 for
AND, where operand2 is the old register bits[2:0] when bit 5 is 0 and the
sign-extended bits[4:0] when bit 5 is 1; the flag is the one belonging to the
new DR; the program counter is the old one plus 1 (as a 16-bit word); no other
general register and no memory cell changes. -/
theorem add_and_step (s : State)
    (h : fetched s >>> 12 = OP_ADD ∨ fetched s >>> 12 = OP_AND) :
    ∃ s', step s = StepResult.next s'
      ∧ (fetched s >>> 12 = OP_ADD → s'.reg (bits (fetched s) 11 9)
          = (s.reg (bits (fetched s) 8 6) + operand2 (fetched s) s) % 2 ^ 16)
      ∧ (fetched s >>> 12 = OP_AND → s'.reg (bits (fetched s) 11 9)
          = (s.reg (bits (fetched s) 8 6) &&& operand2 (fetched s) s) % 2 ^ 16)
      ∧ s'.reg R_COND = flag_for (s'.reg (bits (fetched s) 11 9))
      ∧ s'.reg R_PC = (s.reg R_PC + 1) % 2 ^ 16
      ∧ (∀ r, r < 8 → r ≠ bits (fetched s) 11 9 → s'.reg r = s.reg r)
      ∧ s'.memory = s.memory := by
  have hd := bits_11_9_lt (fetched s)
  have hs1 : bits (fetched s) 8 6 ≠ R_PC := by
    have := bits_8_6_lt (fetched s); simp only [R_PC]; omega
  rcases h with h | h
  · have hp := (step_plain s (by rw [h]; decide) (by rw [h]; decide)).1
    obtain ⟨f1, f2, f3, f4, f5⟩ := alu_frame s (bits (fetched s) 11 9)
      (u16 (s.reg (bits (fetched s) 8 6) + operand2 (fetched s) s)) hd
    refine ⟨_, ?_, ?_, ?_, ?_, f3, f4, f5⟩
    · rw [hp]
      simp only [execute, h, if_true, op_add_eq, operand2_setReg_pc, setReg_reg, hs1, if_false]
    · intro _; rw [f1]; rfl
    · intro h1; rw [h] at h1; exact absurd h1 (by decide)
    · rw [f2, f1]
  · have hp := (step_plain s (by rw [h]; decide) (by rw [h]; decide)).1
    obtain ⟨f1, f2, f3, f4, f5⟩ := alu_frame s (bits (fetched s) 11 9)
      (u16 (s.reg (bits (fetched s) 8 6) &&& operand2 (fetched s) s)) hd
    refine ⟨_, ?_, ?_, ?_, ?_, f3, f4, f5⟩
    · rw [hp]
      have hne : ¬ (OP_AND = OP_ADD) := by decide
      simp only [execute, h, hne, if_true, if_false, op_and_eq, operand2_setReg_pc, setReg_reg,
        hs1]
    · intro h1; rw [h] at h1; exact absurd h1 (by decide)
    · intro _; rw [f1]; rfl
    · rw [f2, f1]

/-- The two instances named in C1: `ADD R2, R0, R1` with R0 = 2, R1 = 3 gives
R2 = 5 and POSITIVE; `ADD R0, R0, #-1` with R0 = 0 gives R0 = 0xFFFF and
NEGATIVE. -/
theorem add_and_step_witness :
    (fetched st_add_reg >>> 12 = OP_ADD ∧ fetched st_add_imm >>> 12 = OP_ADD)
      ∧ (∃ s', step st_add_reg = StepResult.next s' ∧ s'.reg 2 = 5
          ∧ s'.reg R_COND = FL_POS)
      ∧ (∃ s', step st_add_imm = StepResult.next s' ∧ s'.reg 0 = 0xFFFF
          ∧ s'.reg R_COND = FL_NEG) := by
  refine ⟨by decide, ?_, ?_⟩
  · obtain ⟨s', hs, hadd, _, hc, _⟩ := add_and_step st_add_reg (Or.inl (by decide))
    have e : bits (fetched st_add_reg) 11 9 = 2 := by decide
    rw [e] at hadd hc
    have hv : s'.reg 2 = 5 := (hadd (by decide)).trans (by decide)
    exact ⟨s', hs, hv, by rw [hc, hv]; decide⟩
  · obtain ⟨s', hs, hadd, _, hc, _⟩ := add_and_step st_add_imm (Or.inl (by decide))
    have e : bits (fetched st_add_imm) 11 9 = 0 := by decide
    rw [e] at hadd hc
    have hv : s'.reg 0 = 0xFFFF := (hadd (by decide)).trans (by decide)
    exact ⟨s', hs, hv, by rw [hc, hv]; decide⟩

/-! ## BR -/

/-- The three ways a read can go: a plain cell, the keyboard status register
with no key pending, the keyboard status register with a key pending. -/
theorem mem_read_cases (a : Nat) (s : State) :
    (a ≠ MR_KBSR ∧ mem_read a s = (s.memory a, s))
      ∨ (a = MR_KBSR ∧ s.con.key s.con.queries = false ∧ (mem_read a s).1 = 0
          ∧ (mem_read a s).2.memory = fun b => if b = MR_KBSR then 0 else s.memory b)
      ∨ (a = MR_KBSR ∧ s.con.key s.con.queries = true ∧ (mem_read a s).1 = 0x8000
          ∧ (mem_read a s).2.memory = fun b =>
              if b = MR_KBDR then Int.toNat (s.con.getc (s.con.queries + 1) % 65536)
              else if b = MR_KBSR then 0x8000 else s.memory b) := by
  by_cases ha : a = MR_KBSR
  · by_cases hk : s.con.key s.con.queries = true
    · refine Or.inr (Or.inr ⟨ha, hk, ?_, ?_⟩)
      · simp [mem_read, check_key, mem_write, ha, hk]
      · simp [mem_read, check_key, getchar, mem_write, ha, hk]
    · have hk' : s.con.key s.con.queries = false := by simpa using hk
      refine Or.inr (Or.inl ⟨ha, hk', ?_, ?_⟩)
      · simp [mem_read, check_key, mem_write, ha, hk']
      · simp [mem_read, check_key, mem_write, ha, hk']
  · exact Or.inl ⟨ha, mem_read_of_ne a s ha⟩

theorem op_br_eq (w : Nat) (s : State) :
    op_br w s = if bits w 11 9 &&& s.reg R_COND ≠ 0
      then setReg s R_PC (u16 (s.reg R_PC + sext 9 (bits w 8 0))) else s := by
  simp only [op_br, field_11_9, off9_eq]

theorem u16_u16_add (a b : Nat) : u16 (u16 a + b) = (a + b) % 2 ^ 16 := by
  unfold u16; omega

/-- Bit 1 of the mask bits[11:9] is bit 10 of the word. -/
theorem mask_z_bit (w : Nat) : bits w 11 9 &&& FL_ZRO ≠ 0 ↔ bits w 10 10 = 1 := by
  have hm := bits_11_9_lt w
  have hb : bits w 10 10 = bits w 11 9 / 2 % 2 := by
    simp only [bits]; norm_num; omega
  rw [hb]
  generalize bits w 11 9 = m at hm
  interval_cases m <;> decide

/-- The effect of the BR handler on the state left by the fetch. -/
theorem op_br_fetch (w : Nat) (s1 : State) (pc : Nat) :
    (bits w 11 9 &&& s1.reg R_COND ≠ 0 →
        (op_br w (setReg s1 R_PC (u16 (pc + 1)))).reg R_PC
          = (pc + 1 + sext 9 (bits w 8 0)) % 2 ^ 16)
      ∧ (bits w 11 9 &&& s1.reg R_COND = 0 →
        (op_br w (setReg s1 R_PC (u16 (pc + 1)))).reg R_PC = (pc + 1) % 2 ^ 16)
      ∧ (∀ r, r ≠ R_PC → (op_br w (setReg s1 R_PC (u16 (pc + 1)))).reg r = s1.reg r)
      ∧ (op_br w (setReg s1 R_PC (u16 (pc + 1)))).memory = s1.memory := by
  rw [op_br_eq]
  have hc : (setReg s1 R_PC (u16 (pc + 1))).reg R_COND = s1.reg R_COND := by simp
  rw [hc]
  by_cases hb : bits w 11 9 &&& s1.reg R_COND = 0
  · simp only [hb, ne_eq, not_true_eq_false, if_false]
    refine ⟨fun h => False.elim h, fun _ => by simp [u16], ?_, rfl⟩
    intro r hr; simp [hr]
  · simp only [hb, ne_eq, not_false_eq_true, if_true]
    refine ⟨fun _ => ?_, fun h => False.elim h, ?_, rfl⟩
    · simp only [setReg_reg, if_true]
      exact u16_u16_add _ _
    · intro r hr; simp [hr]

/-- C4, as amended. When the fetched word has opcode BR (0000), with
mask = bits[11:9] and offset = sign-extended bits[8:0]: the step completes, the
program counter is (old PC + 1 + offset) mod 2^16 if mask and flag have a common
bit and (old PC + 1) mod 2^16 otherwise; general registers and the flag are
unchanged; every memory cell other than the keyboard status register 0xFE00 is
unchanged, and that one is unchanged too unless the instruction was fetched
from it (old PC = 0xFE00), in which case the fetch has cleared it to 0.  With
the flag ZERO the branch is taken exactly when bit 10 (the Z bit of the mask)
is set. -/
theorem br_step (s : State) (h : fetched s >>> 12 = OP_BR) :
    ∃ s', step s = StepResult.next s'
      ∧ (bits (fetched s) 11 9 &&& s.reg R_COND ≠ 0 →
          s'.reg R_PC = (s.reg R_PC + 1 + sext 9 (bits (fetched s) 8 0)) % 2 ^ 16)
      ∧ (bits (fetched s) 11 9 &&& s.reg R_COND = 0 →
          s'.reg R_PC = (s.reg R_PC + 1) % 2 ^ 16)
      ∧ (∀ r, r < 8 → s'.reg r = s.reg r)
      ∧ s'.reg R_COND = s.reg R_COND
      ∧ (∀ a, a ≠ MR_KBSR → s'.memory a = s.memory a)
      ∧ (s.reg R_PC ≠ MR_KBSR → s'.memory = s.memory)
      ∧ (s.reg R_PC = MR_KBSR → s'.memory MR_KBSR = 0)
      ∧ (s.reg R_COND = FL_ZRO → bits (fetched s) 10 10 = 1 →
          s'.reg R_PC = (s.reg R_PC + 1 + sext 9 (bits (fetched s) 8 0)) % 2 ^ 16)
      ∧ (s.reg R_COND = FL_ZRO → bits (fetched s) 10 10 = 0 →
          s'.reg R_PC = (s.reg R_PC + 1) % 2 ^ 16) := by
  obtain ⟨b1, b2, b3, b4⟩ :=
    op_br_fetch (fetched s) (mem_read (s.reg R_PC) s).2 (s.reg R_PC)
  rw [mem_read_reg] at b1 b2 b3
  have hstep : step s = StepResult.next
      (op_br (fetched s) (setReg (mem_read (s.reg R_PC) s).2 R_PC (u16 (s.reg R_PC + 1)))) := by
    rw [step_eq]
    simp [execute, h]
  have hmem : (∀ a, a ≠ MR_KBSR → (mem_read (s.reg R_PC) s).2.memory a = s.memory a)
      ∧ (s.reg R_PC ≠ MR_KBSR → (mem_read (s.reg R_PC) s).2.memory = s.memory)
      ∧ (s.reg R_PC = MR_KBSR → (mem_read (s.reg R_PC) s).2.memory MR_KBSR = 0) := by
    rcases mem_read_cases (s.reg R_PC) s with ⟨hne, he⟩ | ⟨he, _, _, hm⟩ | ⟨_, _, hv, _⟩
    · rw [he]; exact ⟨fun _ _ => rfl, fun _ => rfl, fun e => absurd e hne⟩
    · rw [hm]
      exact ⟨fun a ha => by simp [ha], fun e => absurd he e, fun _ => by simp⟩
    · have : fetched s = 0x8000 := hv
      rw [this] at h
      exact absurd h (by decide)
  refine ⟨_, hstep, b1, b2, fun r hr => b3 r (by simp only [R_PC]; omega),
    b3 R_COND (by decide), ?_, ?_, ?_, ?_, ?_⟩
  · intro a ha; rw [b4]; exact hmem.1 a ha
  · intro hpc; rw [b4]; exact hmem.2.1 hpc
  · intro hpc; rw [b4]; exact hmem.2.2 hpc
  · intro hz hbit
    exact b1 (by rw [hz]; exact (mask_z_bit _).2 hbit)
  · intro hz hbit
    apply b2
    rw [hz]
    by_contra hne
    have := (mask_z_bit _).1 hne
    omega

/-- The claim C4 fails where the branch is fetched from the keyboard status
register: with PC = 0xFE00, memory[0xFE00] = 0x1234 and no key pending, the
fetched word is 0 (opcode BR), the step completes, and it leaves
memory[0xFE00] = 0. -/
theorem br_step_changes_memory :
    fetched st_br_kbsr >>> 12 = OP_BR
      ∧ (step st_br_kbsr).completed = true
      ∧ st_br_kbsr.memory MR_KBSR = 0x1234
      ∧ (step st_br_kbsr).state.memory MR_KBSR = 0 := by
  decide

/-- Instances of C4 with the flag ZERO: `BRz #2` at 0x3000 branches to 0x3003,
the same word with the Z bit cleared from the mask goes on to 0x3001, and in both
cases memory is unchanged. -/
theorem br_step_witness :
    (fetched st_br_z >>> 12 = OP_BR ∧ fetched st_br_np >>> 12 = OP_BR)
      ∧ (∃ s', step st_br_z = StepResult.next s' ∧ s'.reg R_PC = 0x3003
          ∧ s'.memory = st_br_z.memory)
      ∧ (∃ s', step st_br_np = StepResult.next s' ∧ s'.reg R_PC = 0x3001
          ∧ s'.memory = st_br_np.memory) := by
  refine ⟨by decide, ?_, ?_⟩
  · obtain ⟨s', hs, _, _, _, _, _, hm, _, hz, _⟩ := br_step st_br_z (by decide)
    exact ⟨s', hs, (hz (by decide) (by decide)).trans (by decide), hm (by decide)⟩
  · obtain ⟨s', hs, _, _, _, _, _, hm, _, _, hz⟩ := br_step st_br_np (by decide)
    exact ⟨s', hs, (hz (by decide) (by decide)).trans (by decide), hm (by decide)⟩

/-! ## LD and LDI -/

/-- What a load handler leaves behind: the destination written, the flag set
from it, the program counter as after the fetch, everything else untouched. -/
theorem load_frame (t : State) (p d v : Nat) (hd : d < 8) :
    (update_flags d (setReg (setReg t R_PC p) d v)).reg d = v
      ∧ (update_flags d (setReg (setReg t R_PC p) d v)).reg R_COND = flag_for v
      ∧ (update_flags d (setReg (setReg t R_PC p) d v)).reg R_PC = p
      ∧ (∀ r, r < 8 → r ≠ d →
          (update_flags d (setReg (setReg t R_PC p) d v)).reg r = t.reg r)
      ∧ (update_flags d (setReg (setReg t R_PC p) d v)).memory = t.memory := by
  have h9 : d ≠ R_COND := by simp only [R_COND]; omega
  have h8 : R_PC ≠ d := by simp only [R_PC]; omega
  rw [update_flags_eq]
  refine ⟨by simp [h9], by simp, by simp [h8], ?_, rfl⟩
  intro r hr hrd
  have h1 : r ≠ R_COND := by simp only [R_COND]; omega
  have h2 : r ≠ R_PC := by simp only [R_PC]; omega
  simp [h1, h2, hrd]

theorem op_ld_fetch (w : Nat) (s : State) :
    op_ld w (setReg s R_PC (u16 (s.reg R_PC + 1)))
      = update_flags (bits w 11 9)
          (setReg (setReg
              (mem_read ((s.reg R_PC + 1 + sext 9 (bits w 8 0)) % 2 ^ 16) s).2
              R_PC (u16 (s.reg R_PC + 1)))
            (bits w 11 9)
            (mem_read ((s.reg R_PC + 1 + sext 9 (bits w 8 0)) % 2 ^ 16) s).1) := by
  simp only [op_ld, field_11_9, off9_eq, setReg_reg, if_true, u16_u16_add, mem_read_setReg]

theorem op_ldi_fetch (w : Nat) (s : State) :
    op_ldi w (setReg s R_PC (u16 (s.reg R_PC + 1)))
      = update_flags (bits w 11 9)
          (setReg (setReg
              (mem_read (mem_read ((s.reg R_PC + 1 + sext 9 (bits w 8 0)) % 2 ^ 16) s).1
                (mem_read ((s.reg R_PC + 1 + sext 9 (bits w 8 0)) % 2 ^ 16) s).2).2
              R_PC (u16 (s.reg R_PC + 1)))
            (bits w 11 9)
            (mem_read (mem_read ((s.reg R_PC + 1 + sext 9 (bits w 8 0)) % 2 ^ 16) s).1
                (mem_read ((s.reg R_PC + 1 + sext 9 (bits w 8 0)) % 2 ^ 16) s).2).1) := by
  simp only [op_ldi, field_11_9, off9_eq, setReg_reg, if_true, u16_u16_add, mem_read_setReg]

/-- C5. When the fetched word has opcode LDI (1010), with DR = bits[11:9] and
M1 = (old PC + 1 + sign-extended bits[8:0]) mod 2^16: if memory[M1] = A and
memory[A] = V and neither M1 nor A is the keyboard status address 0xFE00, the
step completes with register DR = V, the flag belonging to V, the program
counter old PC + 1 (as a 16-bit word), memory unchanged and the other general
registers unchanged. -/
theorem ldi_step (s : State) (A V : Nat) (h : fetched s >>> 12 = OP_LDI)
    (hA : s.memory ((s.reg R_PC + 1 + sext 9 (bits (fetched s) 8 0)) % 2 ^ 16) = A)
    (hV : s.memory A = V)
    (hM1 : (s.reg R_PC + 1 + sext 9 (bits (fetched s) 8 0)) % 2 ^ 16 ≠ MR_KBSR)
    (hA' : A ≠ MR_KBSR) :
    ∃ s', step s = StepResult.next s'
      ∧ s'.reg (bits (fetched s) 11 9) = V
      ∧ s'.reg R_COND = flag_for V
      ∧ s'.reg R_PC = (s.reg R_PC + 1) % 2 ^ 16
      ∧ s'.memory = s.memory
      ∧ (∀ r, r < 8 → r ≠ bits (fetched s) 11 9 → s'.reg r = s.reg r) := by
  have hp := (step_plain s (by rw [h]; decide) (by rw [h]; decide)).1
  have hstep : step s = StepResult.next
      (op_ldi (fetched s) (setReg s R_PC (u16 (s.reg R_PC + 1)))) := by
    rw [hp]; simp [execute, h]
  rw [op_ldi_fetch, mem_read_of_ne _ _ hM1] at hstep
  simp only [hA, mem_read_of_ne _ _ hA', hV] at hstep
  obtain ⟨f1, f2, f3, f4, f5⟩ :=
    load_frame s (u16 (s.reg R_PC + 1)) (bits (fetched s) 11 9) V (bits_11_9_lt _)
  exact ⟨_, hstep, f1, f2, f3, f5, f4⟩

/-- An instance of C5: `LDI R2, #1` at 0x3000 with memory[0x3002] = 0x4000 and
memory[0x4000] = 42 loads 42 into R2. -/
theorem ldi_step_witness :
    (fetched st_ldi >>> 12 = OP_LDI
        ∧ st_ldi.memory ((st_ldi.reg R_PC + 1 + sext 9 (bits (fetched st_ldi) 8 0)) % 2 ^ 16)
            = 0x4000
        ∧ st_ldi.memory 0x4000 = 42
        ∧ (st_ldi.reg R_PC + 1 + sext 9 (bits (fetched st_ldi) 8 0)) % 2 ^ 16 ≠ MR_KBSR
        ∧ 0x4000 ≠ MR_KBSR)
      ∧ ∃ s', step st_ldi = StepResult.next s' ∧ s'.reg 2 = 42 ∧ s'.reg R_COND = FL_POS
          ∧ s'.reg R_PC = 0x3001 := by
  refine ⟨by decide, ?_⟩
  obtain ⟨s', hs, hv, hc, hpc, _⟩ :=
    ldi_step st_ldi 0x4000 42 (by decide) (by decide) (by decide) (by decide) (by decide)
  exact ⟨s', hs, hv, hc.trans (by decide), hpc.trans (by decide)⟩

/-- C6. When the fetched word has opcode LD (0010), with DR = bits[11:9]: the
step completes and register DR is the result of the read at address
(old PC + 1 + sign-extended bits[8:0]) mod 2^16 (the stored word when that
address is not the keyboard status register); the flag is the one belonging
to the loaded value and the program counter is old PC + 1 (as a 16-bit word). -/
theorem ld_step (s : State) (h : fetched s >>> 12 = OP_LD) :
    ∃ s', step s = StepResult.next s'
      ∧ s'.reg (bits (fetched s) 11 9)
          = (mem_read ((s.reg R_PC + 1 + sext 9 (bits (fetched s) 8 0)) % 2 ^ 16) s).1
      ∧ ((s.reg R_PC + 1 + sext 9 (bits (fetched s) 8 0)) % 2 ^ 16 ≠ MR_KBSR →
          s'.reg (bits (fetched s) 11 9)
            = s.memory ((s.reg R_PC + 1 + sext 9 (bits (fetched s) 8 0)) % 2 ^ 16))
      ∧ s'.reg R_COND = flag_for (s'.reg (bits (fetched s) 11 9))
      ∧ s'.reg R_PC = (s.reg R_PC + 1) % 2 ^ 16
      ∧ (∀ r, r < 8 → r ≠ bits (fetched s) 11 9 → s'.reg r = s.reg r) := by
  have hp := (step_plain s (by rw [h]; decide) (by rw [h]; decide)).1
  have hstep : step s = StepResult.next
      (op_ld (fetched s) (setReg s R_PC (u16 (s.reg R_PC + 1)))) := by
    rw [hp]; simp [execute, h]
  rw [op_ld_fetch] at hstep
  obtain ⟨f1, f2, f3, f4, _⟩ :=
    load_frame (mem_read ((s.reg R_PC + 1 + sext 9 (bits (fetched s) 8 0)) % 2 ^ 16) s).2
      (u16 (s.reg R_PC + 1)) (bits (fetched s) 11 9)
      (mem_read ((s.reg R_PC + 1 + sext 9 (bits (fetched s) 8 0)) % 2 ^ 16) s).1
      (bits_11_9_lt _)
  rw [mem_read_reg] at f4
  refine ⟨_, hstep, f1, ?_, by rw [f2, f1], f3, f4⟩
  intro hne
  rw [f1, mem_read_of_ne _ _ hne]

/-- An instance of C6 at the top of the address space: `LD R3, #1` fetched at
0xFFFF reads address (0xFFFF + 1 + 1) mod 65536 = 1, which holds 0x8001; the
flag is NEGATIVE and the program counter is 0. -/
theorem ld_step_witness :
    fetched st_ld >>> 12 = OP_LD
      ∧ ∃ s', step st_ld = StepResult.next s' ∧ s'.reg 3 = 0x8001
          ∧ s'.reg R_COND = FL_NEG ∧ s'.reg R_PC = 0 := by
  refine ⟨by decide, ?_⟩
  obtain ⟨s', hs, _, hv, hc, hpc, _⟩ := ld_step st_ld (by decide)
  have e : bits (fetched st_ld) 11 9 = 3 := by decide
  rw [e] at hv hc
  have hv3 : s'.reg 3 = 0x8001 := (hv (by decide)).trans (by decide)
  exact ⟨s', hs, hv3, by rw [hc, hv3]; decide, hpc.trans (by decide)⟩

/-! ## ST, STI and STR -/

@[simp] theorem mem_write_memory (a v : Nat) (s : State) (b : Nat) :
    (mem_write a v s).memory b = if b = a then v else s.memory b := rfl

@[simp] theorem mem_write_reg (a v : Nat) (s : State) : (mem_write a v s).reg = s.reg := rfl

/-- A read changes no cell other than the two keyboard registers, and none at
all unless the address read is the keyboard status register. -/
theorem mem_read_memory (a b : Nat) (s : State)
    (h : a ≠ MR_KBSR ∨ (b ≠ MR_KBSR ∧ b ≠ MR_KBDR)) :
    (mem_read a s).2.memory b = s.memory b := by
  rcases mem_read_cases a s with ⟨_, he⟩ | ⟨ha, _, _, hm⟩ | ⟨ha, _, _, hm⟩
  · rw [he]
  · rcases h with h | ⟨h1, _⟩
    · exact absurd ha h
    · rw [hm]; simp [h1]
  · rcases h with h | ⟨h1, h2⟩
    · exact absurd ha h
    · rw [hm]; simp [h1, h2]

theorem op_st_fetch (w : Nat) (s : State) :
    op_st w (setReg s R_PC (u16 (s.reg R_PC + 1)))
      = mem_write ((s.reg R_PC + 1 + sext 9 (bits w 8 0)) % 2 ^ 16) (s.reg (bits w 11 9))
          (setReg s R_PC (u16 (s.reg R_PC + 1))) := by
  have h : bits w 11 9 ≠ R_PC := by
    have := bits_11_9_lt w; simp only [R_PC]; omega
  simp only [op_st, field_11_9, off9_eq, setReg_reg, if_true, u16_u16_add, h, if_false]

theorem op_sti_fetch (w : Nat) (s : State) :
    op_sti w (setReg s R_PC (u16 (s.reg R_PC + 1)))
      = mem_write (mem_read ((s.reg R_PC + 1 + sext 9 (bits w 8 0)) % 2 ^ 16) s).1
          (s.reg (bits w 11 9))
          (setReg (mem_read ((s.reg R_PC + 1 + sext 9 (bits w 8 0)) % 2 ^ 16) s).2
            R_PC (u16 (s.reg R_PC + 1))) := by
  have h : bits w 11 9 ≠ R_PC := by
    have := bits_11_9_lt w; simp only [R_PC]; omega
  simp only [op_sti, field_11_9, off9_eq, setReg_reg, if_true, u16_u16_add, h, if_false,
    mem_read_setReg, mem_read_reg]

theorem op_str_fetch (w : Nat) (s : State) :
    op_str w (setReg s R_PC (u16 (s.reg R_PC + 1)))
      = mem_write (u16 (s.reg (bits w 8 6) + sext 6 (bits w 5 0))) (s.reg (bits w 11 9))
          (setReg s R_PC (u16 (s.reg R_PC + 1))) := by
  have h : bits w 11 9 ≠ R_PC := by
    have := bits_11_9_lt w; simp only [R_PC]; omega
  have h' : bits w 8 6 ≠ R_PC := by
    have := bits_8_6_lt w; simp only [R_PC]; omega
  simp only [op_str, field_11_9, field_8_6, off6_eq, setReg_reg, h, h', if_false]

theorem op_ldr_fetch (w : Nat) (s : State) :
    op_ldr w (setReg s R_PC (u16 (s.reg R_PC + 1)))
      = update_flags (bits w 11 9)
          (setReg (setReg
              (mem_read (u16 (s.reg (bits w 8 6) + sext 6 (bits w 5 0))) s).2
              R_PC (u16 (s.reg R_PC + 1)))
            (bits w 11 9)
            (mem_read (u16 (s.reg (bits w 8 6) + sext 6 (bits w 5 0))) s).1) := by
  have h' : bits w 8 6 ≠ R_PC := by
    have := bits_8_6_lt w; simp only [R_PC]; omega
  simp only [op_ldr, field_11_9, field_8_6, off6_eq, setReg_reg, h', if_false, mem_read_setReg]

theorem bits_8_0_congr (l w : Nat) (h : l % 4096 = w % 4096) : bits l 8 0 = bits w 8 0 := by
  simp only [bits]; norm_num; omega

theorem bits_5_0_congr (l w : Nat) (h : l % 4096 = w % 4096) : bits l 5 0 = bits w 5 0 := by
  simp only [bits]; norm_num; omega

theorem bits_8_6_congr (l w : Nat) (h : l % 4096 = w % 4096) : bits l 8 6 = bits w 8 6 := by
  simp only [bits]; norm_num; omega

/-- C7. When the fetched word is a store (ST 0011, STI 1011, STR 0111) with
SR = bits[11:9]: the step completes and the cell at the effective address holds
the old value of SR, the effective address being `pc_rel` for ST, the result of
the read at `pc_rel` for STI and `base_off` for STR; every other cell is
unchanged (for STI: apart from the two keyboard registers when the pointer is
read from 0xFE00); no general register and not the flag changes.  The loads
with the same operand bits read at the same addresses: LD at `pc_rel`, LDI at
the result of the read at `pc_rel`, LDR at `base_off`. -/
theorem store_step (s : State)
    (h : fetched s >>> 12 = OP_ST ∨ fetched s >>> 12 = OP_STI ∨ fetched s >>> 12 = OP_STR) :
    ∃ s', step s = StepResult.next s'
      ∧ (fetched s >>> 12 = OP_ST →
          s'.memory (pc_rel s) = s.reg (bits (fetched s) 11 9)
            ∧ ∀ a, a ≠ pc_rel s → s'.memory a = s.memory a)
      ∧ (fetched s >>> 12 = OP_STI →
          s'.memory (mem_read (pc_rel s) s).1 = s.reg (bits (fetched s) 11 9)
            ∧ (pc_rel s ≠ MR_KBSR → (mem_read (pc_rel s) s).1 = s.memory (pc_rel s))
            ∧ ∀ a, a ≠ (mem_read (pc_rel s) s).1 →
                (pc_rel s ≠ MR_KBSR ∨ (a ≠ MR_KBSR ∧ a ≠ MR_KBDR)) →
                s'.memory a = s.memory a)
      ∧ (fetched s >>> 12 = OP_STR →
          s'.memory (base_off s) = s.reg (bits (fetched s) 11 9)
            ∧ ∀ a, a ≠ base_off s → s'.memory a = s.memory a)
      ∧ (∀ r, r < 8 → s'.reg r = s.reg r)
      ∧ s'.reg R_COND = s.reg R_COND
      ∧ (∀ l, l % 4096 = fetched s % 4096 →
          op_ld l (setReg s R_PC (u16 (s.reg R_PC + 1)))
              = update_flags (bits l 11 9)
                  (setReg (setReg (mem_read (pc_rel s) s).2 R_PC (u16 (s.reg R_PC + 1)))
                    (bits l 11 9) (mem_read (pc_rel s) s).1)
            ∧ op_ldi l (setReg s R_PC (u16 (s.reg R_PC + 1)))
              = update_flags (bits l 11 9)
                  (setReg (setReg
                      (mem_read (mem_read (pc_rel s) s).1 (mem_read (pc_rel s) s).2).2
                      R_PC (u16 (s.reg R_PC + 1)))
                    (bits l 11 9)
                    (mem_read (mem_read (pc_rel s) s).1 (mem_read (pc_rel s) s).2).1)
            ∧ op_ldr l (setReg s R_PC (u16 (s.reg R_PC + 1)))
              = update_flags (bits l 11 9)
                  (setReg (setReg (mem_read (base_off s) s).2 R_PC (u16 (s.reg R_PC + 1)))
                    (bits l 11 9) (mem_read (base_off s) s).1)) := by
  have hloads : ∀ l, l % 4096 = fetched s % 4096 →
      op_ld l (setReg s R_PC (u16 (s.reg R_PC + 1)))
          = update_flags (bits l 11 9)
              (setReg (setReg (mem_read (pc_rel s) s).2 R_PC (u16 (s.reg R_PC + 1)))
                (bits l 11 9) (mem_read (pc_rel s) s).1)
        ∧ op_ldi l (setReg s R_PC (u16 (s.reg R_PC + 1)))
          = update_flags (bits l 11 9)
              (setReg (setReg
                  (mem_read (mem_read (pc_rel s) s).1 (mem_read (pc_rel s) s).2).2
                  R_PC (u16 (s.reg R_PC + 1)))
                (bits l 11 9)
                (mem_read (mem_read (pc_rel s) s).1 (mem_read (pc_rel s) s).2).1)
        ∧ op_ldr l (setReg s R_PC (u16 (s.reg R_PC + 1)))
          = update_flags (bits l 11 9)
              (setReg (setReg (mem_read (base_off s) s).2 R_PC (u16 (s.reg R_PC + 1)))
                (bits l 11 9) (mem_read (base_off s) s).1) := by
    intro l hl
    refine ⟨?_, ?_, ?_⟩
    · rw [op_ld_fetch, bits_8_0_congr l _ hl]; rfl
    · rw [op_ldi_fetch, bits_8_0_congr l _ hl]; rfl
    · rw [op_ldr_fetch, bits_8_6_congr l _ hl, bits_5_0_congr l _ hl]; rfl
  have hregs : ∀ (t : State) (a v : Nat), t.reg = s.reg →
      (∀ r, r < 8 → (mem_write a v (setReg t R_PC (u16 (s.reg R_PC + 1)))).reg r = s.reg r)
        ∧ (mem_write a v (setReg t R_PC (u16 (s.reg R_PC + 1)))).reg R_COND
            = s.reg R_COND := by
    intro t a v ht
    refine ⟨fun r hr => ?_, ?_⟩
    · have : r ≠ R_PC := by simp only [R_PC]; omega
      simp [this, ht]
    · simp [ht]
  rcases h with h | h | h
  · have hp := (step_plain s (by rw [h]; decide) (by rw [h]; decide)).1
    have hstep : step s = StepResult.next
        (op_st (fetched s) (setReg s R_PC (u16 (s.reg R_PC + 1)))) := by
      rw [hp]; simp [execute, h]
    rw [op_st_fetch] at hstep
    obtain ⟨g1, g2⟩ := hregs s (pc_rel s) (s.reg (bits (fetched s) 11 9)) rfl
    refine ⟨_, hstep, ?_, ?_, ?_, g1, g2, hloads⟩
    · intro _
      exact ⟨by simp [pc_rel], fun a ha => by simp [pc_rel] at ha ⊢; simp [ha]⟩
    · intro h1; rw [h] at h1; exact absurd h1 (by decide)
    · intro h1; rw [h] at h1; exact absurd h1 (by decide)
  · have hp := (step_plain s (by rw [h]; decide) (by rw [h]; decide)).1
    have hstep : step s = StepResult.next
        (op_sti (fetched s) (setReg s R_PC (u16 (s.reg R_PC + 1)))) := by
      rw [hp]; simp [execute, h]
    rw [op_sti_fetch] at hstep
    obtain ⟨g1, g2⟩ := hregs (mem_read (pc_rel s) s).2 (mem_read (pc_rel s) s).1
      (s.reg (bits (fetched s) 11 9)) (mem_read_reg _ _)
    refine ⟨_, hstep, ?_, ?_, ?_, g1, g2, hloads⟩
    · intro h1; rw [h] at h1; exact absurd h1 (by decide)
    · intro _
      refine ⟨by simp [pc_rel], fun hne => by rw [mem_read_of_ne _ _ hne], ?_⟩
      intro a ha hk
      have hm := mem_read_memory (pc_rel s) a s hk
      show (if a = (mem_read (pc_rel s) s).1 then s.reg (bits (fetched s) 11 9)
        else (mem_read (pc_rel s) s).2.memory a) = s.memory a
      rw [if_neg ha, hm]
    · intro h1; rw [h] at h1; exact absurd h1 (by decide)
  · have hp := (step_plain s (by rw [h]; decide) (by rw [h]; decide)).1
    have hstep : step s = StepResult.next
        (op_str (fetched s) (setReg s R_PC (u16 (s.reg R_PC + 1)))) := by
      rw [hp]; simp [execute, h]
    rw [op_str_fetch] at hstep
    obtain ⟨g1, g2⟩ := hregs s (base_off s) (s.reg (bits (fetched s) 11 9)) rfl
    refine ⟨_, hstep, ?_, ?_, ?_, g1, g2, hloads⟩
    · intro h1; rw [h] at h1; exact absurd h1 (by decide)
    · intro h1; rw [h] at h1; exact absurd h1 (by decide)
    · intro _
      exact ⟨by simp [base_off, u16], fun a ha => by simp [base_off, u16] at ha ⊢; simp [ha]⟩

/-- Instances of C7: `ST R1, #2` at 0x3000 writes R1 = 0xBEEF to 0x3003;
`STI R1, #2` writes it to the address 0x5000 held in cell 0x3003;
`STR R1, R2, #-1` with R2 = 0 writes it to 0xFFFF.  The instruction cell itself
is left alone. -/
theorem store_step_witness :
    (fetched st_st >>> 12 = OP_ST ∧ fetched st_sti >>> 12 = OP_STI
        ∧ fetched st_str >>> 12 = OP_STR)
      ∧ (∃ s', step st_st = StepResult.next s' ∧ s'.memory 0x3003 = 0xBEEF
          ∧ s'.memory 0x3000 = 0x3202)
      ∧ (∃ s', step st_sti = StepResult.next s' ∧ s'.memory 0x5000 = 0xBEEF
          ∧ s'.memory 0x3003 = 0x5000)
      ∧ (∃ s', step st_str = StepResult.next s' ∧ s'.memory 0xFFFF = 0xBEEF
          ∧ s'.memory 0x3000 = 0x72BF) := by
  refine ⟨by decide, ?_, ?_, ?_⟩
  · obtain ⟨s', hs, hst, _, _, _⟩ := store_step st_st (Or.inl (by decide))
    have e : pc_rel st_st = 0x3003 := by decide
    obtain ⟨h1, h2⟩ := hst (by decide)
    rw [e] at h1 h2
    exact ⟨s', hs, h1.trans (by decide), (h2 0x3000 (by decide)).trans (by decide)⟩
  · obtain ⟨s', hs, _, hsti, _, _⟩ := store_step st_sti (Or.inr (Or.inl (by decide)))
    have e : (mem_read (pc_rel st_sti) st_sti).1 = 0x5000 := by decide
    obtain ⟨h1, _, h2⟩ := hsti (by decide)
    rw [e] at h1 h2
    exact ⟨s', hs, h1.trans (by decide),
      (h2 0x3003 (by decide) (Or.inl (by decide))).trans (by decide)⟩
  · obtain ⟨s', hs, _, _, hstr, _⟩ := store_step st_str (Or.inr (Or.inr (by decide)))
    have e : base_off st_str = 0xFFFF := by decide
    obtain ⟨h1, h2⟩ := hstr (by decide)
    rw [e] at h1 h2
    exact ⟨s', hs, h1.trans (by decide), (h2 0x3000 (by decide)).trans (by decide)⟩

/-! ## JSR and JSRR -/

theorem op_jsr_eq (w : Nat) (s : State) :
    op_jsr w s = if bits w 11 11 ≠ 0
      then setReg (setReg s R_R7 (s.reg R_PC)) R_PC
        (u16 ((setReg s R_R7 (s.reg R_PC)).reg R_PC + sext 11 (bits w 10 0)))
      else setReg (setReg s R_R7 (s.reg R_PC)) R_PC
        ((setReg s R_R7 (s.reg R_PC)).reg (bits w 8 6)) := by
  simp only [op_jsr, field_11_11, field_8_6, off11_eq]

/-- C8. When the fetched word has opcode 0100 (JSR/JSRR): the step completes
with register 7 = (old PC + 1) mod 2^16; if bit 11 is 1 the program counter is
(old PC + 1 + sign-extended bits[10:0]) mod 2^16; if bit 11 is 0 it is the value
of base register bits[8:6] read after register 7 has been saved, that is the
old value of that register when it is not R7 and (old PC + 1) mod 2^16 when it
is R7.  The flag, registers 0..6 and memory are unchanged. -/
theorem jsr_step (s : State) (h : fetched s >>> 12 = OP_JSR) :
    ∃ s', step s = StepResult.next s'
      ∧ s'.reg R_R7 = (s.reg R_PC + 1) % 2 ^ 16
      ∧ (bits (fetched s) 11 11 = 1 →
          s'.reg R_PC = (s.reg R_PC + 1 + sext 11 (bits (fetched s) 10 0)) % 2 ^ 16)
      ∧ (bits (fetched s) 11 11 = 0 → bits (fetched s) 8 6 ≠ R_R7 →
          s'.reg R_PC = s.reg (bits (fetched s) 8 6))
      ∧ (bits (fetched s) 11 11 = 0 → bits (fetched s) 8 6 = R_R7 →
          s'.reg R_PC = (s.reg R_PC + 1) % 2 ^ 16)
      ∧ s'.reg R_COND = s.reg R_COND
      ∧ (∀ r, r < 7 → s'.reg r = s.reg r)
      ∧ s'.memory = s.memory := by
  have hp := (step_plain s (by rw [h]; decide) (by rw [h]; decide)).1
  have hstep : step s = StepResult.next
      (op_jsr (fetched s) (setReg s R_PC (u16 (s.reg R_PC + 1)))) := by
    rw [hp]; simp [execute, h]
  have hb := bits_8_6_lt (fetched s)
  rw [op_jsr_eq] at hstep
  by_cases hm : bits (fetched s) 11 11 = 0
  · simp only [hm, ne_eq, not_true_eq_false, if_false] at hstep
    refine ⟨_, hstep, by simp [u16], fun h1 => by omega, ?_, ?_, by simp, ?_, rfl⟩
    · intro _ h7
      have h8 : bits (fetched s) 8 6 ≠ R_PC := by simp only [R_PC]; omega
      simp [h7, h8]
    · intro _ h7
      simp [h7, u16]
    · intro r hr
      have h1 : r ≠ R_PC := by simp only [R_PC]; omega
      have h2 : r ≠ R_R7 := by simp only [R_R7]; omega
      simp [h1, h2]
  · simp only [hm, ne_eq, not_false_eq_true, if_true] at hstep
    refine ⟨_, hstep, by simp [u16], fun _ => ?_, fun h0 => absurd h0 hm,
      fun h0 => absurd h0 hm, by simp, ?_, rfl⟩
    · simp only [setReg_reg, if_true]
      have : (R_PC = R_R7) = False := by simp
      simp only [this, if_false]
      exact u16_u16_add _ _
    · intro r hr
      have h1 : r ≠ R_PC := by simp only [R_PC]; omega
      have h2 : r ≠ R_R7 := by simp only [R_R7]; omega
      simp [h1, h2]

/-- Instances of C8 at 0x3000: `JSR #3` jumps to 0x3004; `JSRR R2` with
R2 = 0x5000 jumps to 0x5000; `JSRR R7` with R7 = 0x5000 continues at 0x3001,
the value just saved.  In each case register 7 ends up 0x3001. -/
theorem jsr_step_witness :
    (fetched st_jsr >>> 12 = OP_JSR ∧ fetched st_jsrr >>> 12 = OP_JSR
        ∧ fetched st_jsrr7 >>> 12 = OP_JSR)
      ∧ (∃ s', step st_jsr = StepResult.next s' ∧ s'.reg R_R7 = 0x3001
          ∧ s'.reg R_PC = 0x3004)
      ∧ (∃ s', step st_jsrr = StepResult.next s' ∧ s'.reg R_R7 = 0x3001
          ∧ s'.reg R_PC = 0x5000)
      ∧ (∃ s', step st_jsrr7 = StepResult.next s' ∧ s'.reg R_R7 = 0x3001
          ∧ s'.reg R_PC = 0x3001) := by
  refine ⟨by decide, ?_, ?_, ?_⟩
  · obtain ⟨s', hs, h7, hj, _⟩ := jsr_step st_jsr (by decide)
    exact ⟨s', hs, h7.trans (by decide), (hj (by decide)).trans (by decide)⟩
  · obtain ⟨s', hs, h7, _, hj, _⟩ := jsr_step st_jsrr (by decide)
    exact ⟨s', hs, h7.trans (by decide), (hj (by decide) (by decide)).trans (by decide)⟩
  · obtain ⟨s', hs, h7, _, _, hj, _⟩ := jsr_step st_jsrr7 (by decide)
    exact ⟨s', hs, h7.trans (by decide), (hj (by decide) (by decide)).trans (by decide)⟩

/-! ## Illegal instructions -/

theorem op_trap_not_bad (w : Nat) (s e : State) :
    op_trap w s ≠ StepResult.bad_instruction e := by
  unfold op_trap
  simp only []
  split_ifs <;> simp

/-- The word fetched from 16-bit memory is a 16-bit word. -/
theorem fetched_lt (s : State) (hmem : ∀ a, s.memory a < 65536) : fetched s < 65536 := by
  unfold fetched
  rcases mem_read_cases (s.reg R_PC) s with ⟨_, he⟩ | ⟨_, _, hv, _⟩ | ⟨_, _, hv, _⟩
  · rw [he]; exact hmem _
  · rw [hv]; decide
  · rw [hv]; decide

theorem execute_bad_iff (w : Nat) (t : State) (hw : w < 65536) :
    (∃ e, execute w t = StepResult.bad_instruction e)
      ↔ (w >>> 12 = OP_RTI ∨ w >>> 12 = OP_RES) := by
  have hop : w >>> 12 < 16 := by
    rw [Nat.shiftRight_eq_div_pow]; omega
  have ht := op_trap_not_bad w t
  unfold execute
  simp only []
  generalize w >>> 12 = k at hop
  interval_cases k <;> simp [ht]

theorem bits_15_12 (w : Nat) (hw : w < 65536) : bits w 15 12 = w >>> 12 := by
  simp only [bits, Nat.shiftRight_eq_div_pow]
  norm_num
  omega

/-- C9. For every machine state (memory holding 16-bit words), one
fetch-decode-execute step ends in the illegal-instruction error if and only if
the top four bits of the fetched word are 1000 (RTI) or 1101 (reserved); in
particular a TRAP, whatever its vector, does not raise it. -/
theorem bad_instruction_iff (s : State) (hmem : ∀ a, s.memory a < 65536) :
    ((∃ e, step s = StepResult.bad_instruction e)
        ↔ (bits (fetched s) 15 12 = 8 ∨ bits (fetched s) 15 12 = 13))
      ∧ (bits (fetched s) 15 12 = 15 → ∀ e, step s ≠ StepResult.bad_instruction e) := by
  have hw := fetched_lt s hmem
  have hiff : (∃ e, step s = StepResult.bad_instruction e)
      ↔ (bits (fetched s) 15 12 = 8 ∨ bits (fetched s) 15 12 = 13) := by
    rw [step_eq, bits_15_12 _ hw]
    exact execute_bad_iff _ _ hw
  refine ⟨hiff, fun h15 e he => ?_⟩
  have := hiff.1 ⟨e, he⟩
  omega

/-- Instances of C9: the words 0x8000 (RTI) and 0xD000 (reserved) raise the
error, the TRAP word 0xF0FF with an unassigned vector and `ADD R2, R0, R1`
do not. -/
theorem bad_instruction_iff_witness :
    ((∀ a, st_rti.memory a < 65536) ∧ (∀ a, st_res.memory a < 65536)
        ∧ (∀ a, st_trap_ff.memory a < 65536) ∧ (∀ a, st_add_reg.memory a < 65536))
      ∧ (∃ e, step st_rti = StepResult.bad_instruction e)
      ∧ (∃ e, step st_res = StepResult.bad_instruction e)
      ∧ (¬ ∃ e, step st_trap_ff = StepResult.bad_instruction e)
      ∧ (¬ ∃ e, step st_add_reg = StepResult.bad_instruction e) := by
  have h1 : ∀ a, st_rti.memory a < 65536 := by
    intro a; simp [st_rti, example_state, List.lookup]; split <;> simp
  have h2 : ∀ a, st_res.memory a < 65536 := by
    intro a; simp [st_res, example_state, List.lookup]; split <;> simp
  have h3 : ∀ a, st_trap_ff.memory a < 65536 := by
    intro a; simp [st_trap_ff, example_state, List.lookup]; split <;> simp
  have h4 : ∀ a, st_add_reg.memory a < 65536 := by
    intro a; simp [st_add_reg, example_state, List.lookup]; split <;> simp
  refine ⟨⟨h1, h2, h3, h4⟩, ?_, ?_, ?_, ?_⟩
  · exact (bad_instruction_iff st_rti h1).1.2 (Or.inl (by decide))
  · exact (bad_instruction_iff st_res h2).1.2 (Or.inr (by decide))
  · intro ⟨e, he⟩
    exact (bad_instruction_iff st_trap_ff h3).2 (by decide) e he
  · intro hb
    have := (bad_instruction_iff st_add_reg h4).1.1 hb
    revert this
    decide

/-! ## HALT and the run loop -/

/-- A halted machine executes nothing. -/
theorem run_halted (fuel : Nat) (s : State) (h : s.running = 0) :
    run fuel s = some (StepResult.next s, 0) := by
  cases fuel <;> simp [run, h]

/-- The loop executes one iteration and then goes on from the state it left. -/
theorem run_succ_next (fuel : Nat) (s s1 : State) (hrun : s.running ≠ 0)
    (hstep : step s = StepResult.next s1) :
    run (fuel + 1) s = (run fuel s1).map (fun r => (r.1, r.2 + 1)) := by
  rw [run]
  simp [hrun, hstep]

theorem op_trap_halt (w : Nat) (s : State) (hvec : bits w 7 0 = TRAP_HALT) :
    op_trap w s = StepResult.next
      { setReg s R_R7 (s.reg R_PC) with
        con := cout_str HALT_MSG (setReg s R_R7 (s.reg R_PC)).con, running := 0 } := by
  simp [op_trap, field_7_0, hvec]

/-- C10. When the fetched word is TRAP with vector 0x25 (HALT): the step
completes and leaves `running = 0`; the loop, if it was running, executes this
one iteration and no other, and from the state left it executes none; that
state differs from the one before the step only in the program counter and
register 7, both (old PC + 1) mod 2^16 (and in the text `HALT` written to the
console). -/
theorem halt_step (s : State) (hop : fetched s >>> 12 = OP_TRAP)
    (hvec : bits (fetched s) 7 0 = TRAP_HALT) :
    ∃ s', step s = StepResult.next s'
      ∧ s'.running = 0
      ∧ (s.running ≠ 0 → ∀ fuel, run (fuel + 1) s = some (StepResult.next s', 1))
      ∧ (∀ fuel, run fuel s' = some (StepResult.next s', 0))
      ∧ s'.reg R_PC = (s.reg R_PC + 1) % 2 ^ 16
      ∧ s'.reg R_R7 = (s.reg R_PC + 1) % 2 ^ 16
      ∧ (∀ r, r < 7 → s'.reg r = s.reg r)
      ∧ s'.reg R_COND = s.reg R_COND
      ∧ s'.memory = s.memory
      ∧ s'.con.out = s.con.out ++ HALT_MSG := by
  have hp := (step_plain s (by rw [hop]; decide) (by rw [hop]; decide)).1
  have hstep : step s = op_trap (fetched s) (setReg s R_PC (u16 (s.reg R_PC + 1))) := by
    rw [hp]; simp [execute, hop]
  rw [op_trap_halt _ _ hvec] at hstep
  refine ⟨_, hstep, rfl, ?_, fun fuel => run_halted fuel _ rfl, by simp [u16], by simp [u16],
    ?_, by simp, rfl, rfl⟩
  · intro hrun fuel
    rw [run_succ_next fuel s _ hrun hstep, run_halted fuel _ rfl]
    rfl
  · intro r hr
    have h1 : r ≠ R_PC := by simp only [R_PC]; omega
    have h2 : r ≠ R_R7 := by simp only [R_R7]; omega
    simp [h1, h2]

/-- An instance of C10: HALT at 0x3000 followed by `ADD R0, R0, #1`.  The run
ends after one iteration with the program counter and R7 at 0x3001 and R0
still 9: the ADD is not executed. -/
theorem halt_step_witness :
    (fetched st_halt >>> 12 = OP_TRAP ∧ bits (fetched st_halt) 7 0 = TRAP_HALT
        ∧ st_halt.running ≠ 0)
      ∧ ∃ s', run 5 st_halt = some (StepResult.next s', 1) ∧ s'.running = 0
          ∧ s'.reg R_PC = 0x3001 ∧ s'.reg R_R7 = 0x3001 ∧ s'.reg 0 = 9
          ∧ s'.con.out = [72, 65, 76, 84, 10] := by
  refine ⟨by decide, ?_⟩
  obtain ⟨s', _, h0, hr, _, hpc, h7, hg, _, _, ho⟩ :=
    halt_step st_halt (by decide) (by decide)
  exact ⟨s', hr (by decide) 4, h0, hpc.trans (by decide), h7.trans (by decide),
    (hg 0 (by decide)).trans (by decide), ho.trans (by decide)⟩

/-! ## The image loader -/

theorem swap16_of_lt (x : Nat) (hx : x < 65536) :
    swap16 x = (256 * x + x / 256) % 65536 := by
  have h : x >>> 8 < 2 ^ 8 := by
    rw [Nat.shiftRight_eq_div_pow]; omega
  unfold swap16 u16
  rw [Nat.shiftLeft_eq, Nat.mul_comm, ← Nat.mul_add_lt_is_or h, Nat.shiftRight_eq_div_pow]

/-- Reading the two bytes of a big-endian word on a little-endian host and
swapping gives the word back. -/
theorem swap16_read (w : Nat) (hw : w < 65536) :
    swap16 (w / 256 % 256 + 256 * (w % 256)) = w := by
  have h1 : w / 256 % 256 = w / 256 := Nat.mod_eq_of_lt (by omega)
  have h2 : (w / 256 + 256 * (w % 256)) / 256 = w % 256 := by omega
  rw [h1, swap16_of_lt _ (by omega), h2]
  omega

theorem read_image_loop_failed (room p : Nat) (bs : List Nat) (memory : Nat → Nat) :
    read_image_loop room p { bytes := bs, good := false } memory
      = (memory, { bytes := bs, good := false }) := by
  cases room <;> simp [read_image_loop]

/-- What the loop does with a stream holding the big-endian bytes of `ws`:
the words go to `p, p + 1, ...` as far as there is room, the cell after the last
word (if there is room for it) is byte-swapped, and nothing else changes. -/
theorem read_image_loop_spec (room : Nat) :
    ∀ (p : Nat) (ws : List Nat) (memory : Nat → Nat), (∀ w ∈ ws, w < 65536) →
      (∀ i w, ws[i]? = some w → i < room →
          (read_image_loop room p { bytes := be_bytes ws, good := true } memory).1 (p + i) = w)
        ∧ (∀ a, a < p →
          (read_image_loop room p { bytes := be_bytes ws, good := true } memory).1 a = memory a)
        ∧ (∀ a, p + room ≤ a →
          (read_image_loop room p { bytes := be_bytes ws, good := true } memory).1 a = memory a)
        ∧ (∀ a, p + ws.length < a →
          (read_image_loop room p { bytes := be_bytes ws, good := true } memory).1 a = memory a)
        ∧ (ws.length < room →
          (read_image_loop room p { bytes := be_bytes ws, good := true } memory).1
              (p + ws.length) = swap16 (memory (p + ws.length))) := by
  induction room with
  | zero =>
    intro p ws memory _
    refine ⟨fun i w _ hi => absurd hi (Nat.not_lt_zero i), fun _ _ => rfl, fun _ _ => rfl,
      fun _ _ => rfl, fun h => absurd h (Nat.not_lt_zero _)⟩
  | succ room ih =>
    intro p ws memory hws
    cases ws with
    | nil =>
      have hl : read_image_loop (room + 1) p { bytes := be_bytes [], good := true } memory
          = (fun a => if a = p then swap16 (memory p) else memory a,
              { bytes := [], good := false }) := by
        simp [read_image_loop, read_word, be_bytes, read_image_loop_failed]
      rw [hl]
      refine ⟨fun i w h _ => by simp at h, ?_, ?_, ?_, ?_⟩
      · intro a ha; have : a ≠ p := by omega
        simp [this]
      · intro a ha; have : a ≠ p := by omega
        simp [this]
      · intro a ha; have : a ≠ p := by simp at ha; omega
        simp [this]
      · intro _; simp
    | cons w ws' =>
      have hw : w < 65536 := hws w (List.mem_cons_self _ _)
      have hws' : ∀ v ∈ ws', v < 65536 := fun v hv => hws v (List.mem_cons_of_mem _ hv)
      have hl : read_image_loop (room + 1) p { bytes := be_bytes (w :: ws'), good := true } memory
          = read_image_loop room (p + 1) { bytes := be_bytes ws', good := true }
              (fun a => if a = p then w else memory a) := by
        simp [read_image_loop, read_word, be_bytes, swap16_read w hw]
      rw [hl]
      obtain ⟨i1, i2, i3, i4, i5⟩ := ih (p + 1) ws' (fun a => if a = p then w else memory a) hws'
      refine ⟨?_, ?_, ?_, ?_, ?_⟩
      · intro i v hv hi
        cases i with
        | zero =>
          have h2 := i2 p (by omega)
          simp only [List.getElem?_cons_zero, Option.some.injEq] at hv
          rw [Nat.add_zero p, h2]
          simpa using hv
        | succ j =>
          rw [List.getElem?_cons_succ] at hv
          have := i1 j v hv (by omega)
          rw [show p + (j + 1) = p + 1 + j by omega]
          exact this
      · intro a ha
        rw [i2 a (by omega)]
        have : a ≠ p := by omega
        simp [this]
      · intro a ha
        rw [i3 a (by omega)]
        have : a ≠ p := by omega
        simp [this]
      · intro a ha
        simp only [List.length_cons] at ha
        rw [i4 a (by omega)]
        have : a ≠ p := by omega
        simp [this]
      · intro hlen
        simp only [List.length_cons] at hlen ⊢
        rw [show p + (ws'.length + 1) = p + 1 + ws'.length by omega, i5 (by omega)]
        have : p + 1 + ws'.length ≠ p := by omega
        simp [this]

theorem read_image_file_eq (o : Nat) (ws : List Nat) (memory : Nat → Nat) (ho : o < 65536) :
    read_image_file (image_file o ws) memory
      = some (read_image_loop (0xFFFF - o) o { bytes := be_bytes ws, good := true } memory) := by
  have hm : MEMORY_MAX - 1 = 0xFFFF := rfl
  simp [read_image_file, image_file, be_bytes, read_word, swap16_read o ho, hm]

/-- Bytes `2 * i` and `2 * i + 1` of the encoding are the high and the low byte
of word `i`. -/
theorem be_bytes_getD (ws : List Nat) :
    ∀ (i : Nat) (hi : i < ws.length),
      (be_bytes ws).getD (2 * i) 0 = ws[i] / 256
        ∧ (be_bytes ws).getD (2 * i + 1) 0 = ws[i] % 256 := by
  induction ws with
  | nil => intro i hi; exact absurd hi (Nat.not_lt_zero i)
  | cons w ws ih =>
    intro i hi
    cases i with
    | zero => simp [be_bytes]
    | succ j =>
      have hj : j < ws.length := by simpa using hi
      obtain ⟨h1, h2⟩ := ih j hj
      have e1 : 2 * (j + 1) = 2 * j + 1 + 1 := by omega
      have e2 : 2 * (j + 1) + 1 = 2 * j + 1 + 1 + 1 := by omega
      refine ⟨?_, ?_⟩
      · rw [e1]; simpa [be_bytes] using h1
      · rw [e2]; simpa [be_bytes] using h2

/-- C11. For an image made of a big-endian origin word `o` and big-endian
payload words `ws`: `read_image_file` returns, and for every
`i < min(n, 0xFFFF - o)` the cell `o + i` holds word `i`, which is the value of
on-disk bytes `2 i + 2` and `2 i + 3` with the first as the high byte; the cells
used are consecutive and below 0xFFFF (no wrapping), the cell 0xFFFF keeps its
content, and so does every cell below the origin. -/
theorem read_image_file_loads (o : Nat) (ws : List Nat) (memory : Nat → Nat)
    (ho : o < 65536) (hws : ∀ w ∈ ws, w < 65536) :
    ∃ r, read_image_file (image_file o ws) memory = some r
      ∧ (∀ (i : Nat) (hi : i < ws.length), i < 0xFFFF - o →
          r.1 (o + i) = ws[i]
            ∧ r.1 (o + i) = 256 * (image_file o ws).bytes.getD (2 * i + 2) 0
                + (image_file o ws).bytes.getD (2 * i + 3) 0
            ∧ o + i < 0xFFFF)
      ∧ r.1 0xFFFF = memory 0xFFFF
      ∧ (∀ a, a < o → r.1 a = memory a) := by
  obtain ⟨l1, l2, l3, _, _⟩ := read_image_loop_spec (0xFFFF - o) o ws memory hws
  refine ⟨_, read_image_file_eq o ws memory ho, ?_, l3 0xFFFF (by omega), l2⟩
  intro i hi hroom
  have hget : ws[i]? = some ws[i] := List.getElem?_eq_getElem hi
  have hval := l1 i ws[i] hget hroom
  have hb := be_bytes_getD (o :: ws) (i + 1) (by simpa using hi)
  have e1 : 2 * (i + 1) = 2 * i + 2 := by omega
  have e2 : 2 * (i + 1) + 1 = 2 * i + 3 := by omega
  rw [e2, e1] at hb
  simp only [List.getElem_cons_succ] at hb
  refine ⟨hval, ?_, by omega⟩
  rw [hval]
  show ws[i] = 256 * (be_bytes (o :: ws)).getD (2 * i + 2) 0
    + (be_bytes (o :: ws)).getD (2 * i + 3) 0
  rw [hb.1, hb.2]
  omega

/-- The instance named in C11: the image with origin 0x3000 and the single
payload word 0x1234 (bytes 30 00 12 34) gives memory[0x3000] = 0x1234. -/
theorem read_image_file_loads_witness :
    (0x3000 < 65536 ∧ (∀ w ∈ [0x1234], w < 65536)
        ∧ (image_file 0x3000 [0x1234]).bytes = [0x30, 0x00, 0x12, 0x34])
      ∧ ∃ r, read_image_file (image_file 0x3000 [0x1234]) (fun _ => 0) = some r
          ∧ r.1 0x3000 = 0x1234 := by
  refine ⟨⟨by decide, by decide, by decide⟩, ?_⟩
  obtain ⟨r, hr, hw, _⟩ :=
    read_image_file_loads 0x3000 [0x1234] (fun _ => 0) (by decide) (by decide)
  exact ⟨r, hr, (hw 0 (by decide) (by decide)).1⟩

/-- C20. For memory that is all zero before loading and an image with origin
`o` and payload words `ws`: `read_image_file` returns, and every cell outside
`o .. o + min(n, 0xFFFF - o) - 1` is still zero, in particular the cell right
after the last loaded word and the cell 0xFFFF.  The cell after the last loaded
word is byte-swapped by the loop (whatever memory held before), and the swap
of zero is zero. -/
theorem read_image_file_frame (o : Nat) (ws : List Nat)
    (ho : o < 65536) (hws : ∀ w ∈ ws, w < 65536) :
    (∃ r, read_image_file (image_file o ws) (fun _ => 0) = some r
        ∧ (∀ a, (a < o ∨ o + min ws.length (0xFFFF - o) ≤ a) → r.1 a = 0)
        ∧ r.1 (o + min ws.length (0xFFFF - o)) = 0
        ∧ r.1 0xFFFF = 0)
      ∧ (∀ memory, ws.length < 0xFFFF - o →
          ∃ r, read_image_file (image_file o ws) memory = some r
            ∧ r.1 (o + ws.length) = swap16 (memory (o + ws.length)))
      ∧ swap16 0 = 0 := by
  have hz : swap16 0 = 0 := by decide
  refine ⟨?_, ?_, hz⟩
  · obtain ⟨_, l2, l3, l4, l5⟩ := read_image_loop_spec (0xFFFF - o) o ws (fun _ => 0) hws
    have hout : ∀ a, (a < o ∨ o + min ws.length (0xFFFF - o) ≤ a) →
        (read_image_loop (0xFFFF - o) o { bytes := be_bytes ws, good := true }
          (fun _ => 0)).1 a = 0 := by
      intro a ha
      rcases ha with ha | ha
      · exact l2 a ha
      · by_cases hn : ws.length < 0xFFFF - o
        · rw [Nat.min_eq_left (Nat.le_of_lt hn)] at ha
          by_cases he : a = o + ws.length
          · rw [he, l5 hn]; exact hz
          · exact l4 a (by omega)
        · rw [Nat.min_eq_right (by omega)] at ha
          exact l3 a ha
    exact ⟨_, read_image_file_eq o ws _ ho, hout, hout _ (Or.inr (Nat.le_refl _)),
      l3 0xFFFF (by omega)⟩
  · intro memory hn
    obtain ⟨_, _, _, _, l5⟩ := read_image_loop_spec (0xFFFF - o) o ws memory hws
    exact ⟨_, read_image_file_eq o ws memory ho, l5 hn⟩

/-- An instance of C20: after loading the image with origin 0x3000 and payload
0x1234 into zeroed memory, the cells 0x2FFF, 0x3001 (the one that was
byte-swapped) and 0xFFFF are zero. -/
theorem read_image_file_frame_witness :
    (0x3000 < 65536 ∧ (∀ w ∈ [0x1234], w < 65536))
      ∧ ∃ r, read_image_file (image_file 0x3000 [0x1234]) (fun _ => 0) = some r
          ∧ r.1 0x2FFF = 0 ∧ r.1 0x3001 = 0 ∧ r.1 0xFFFF = 0 := by
  refine ⟨⟨by decide, by decide⟩, ?_⟩
  obtain ⟨⟨r, hr, hout, _, hlast⟩, _⟩ :=
    read_image_file_frame 0x3000 [0x1234] (by decide) (by decide)
  exact ⟨r, hr, hout 0x2FFF (Or.inl (by decide)), hout 0x3001 (Or.inr (by decide)), hlast⟩

/-! ## The keyboard registers -/

/-- C12. `mem_read` agrees with its reference definition on the value returned
and on the memory left, for every memory and address.  Spelled out: an address
other than KBSR (0xFE00) returns memory[address] and changes no cell; KBSR with
no pending key sets memory[KBSR] to 0 and returns 0; KBSR with a pending
character `c` sets memory[KBSR] to 0x8000 and memory[KBDR] (0xFE02) to the code
of `c`, changes no other cell, and returns 0x8000. -/
theorem mem_read_refines (address : Nat) (s : State) :
    (mem_read address s).1 = (mem_read_ref address (pending_char s.con) s.memory).1
      ∧ (mem_read address s).2.memory
          = (mem_read_ref address (pending_char s.con) s.memory).2
      ∧ (address ≠ MR_KBSR →
          (mem_read address s).1 = s.memory address
            ∧ (mem_read address s).2.memory = s.memory)
      ∧ (address = MR_KBSR → s.con.key s.con.queries = false →
          (mem_read address s).1 = 0
            ∧ (mem_read address s).2.memory MR_KBSR = 0
            ∧ ∀ b, b ≠ MR_KBSR → (mem_read address s).2.memory b = s.memory b)
      ∧ (∀ c : Nat, address = MR_KBSR → s.con.key s.con.queries = true →
          s.con.getc (s.con.queries + 1) = (c : Int) → c < 65536 →
          (mem_read address s).1 = 0x8000
            ∧ (mem_read address s).2.memory MR_KBSR = 0x8000
            ∧ (mem_read address s).2.memory MR_KBDR = c
            ∧ ∀ b, b ≠ MR_KBSR → b ≠ MR_KBDR →
                (mem_read address s).2.memory b = s.memory b) := by
  rcases mem_read_cases address s with ⟨hne, he⟩ | ⟨ha, hk, hv, hm⟩ | ⟨ha, hk, hv, hm⟩
  · refine ⟨?_, ?_, fun _ => ⟨by rw [he], by rw [he]⟩, fun h => absurd h hne,
      fun _ h => absurd h hne⟩
    · rw [he]; simp [mem_read_ref, hne]
    · rw [he]; simp [mem_read_ref, hne]
  · refine ⟨?_, ?_, fun h => absurd ha h, fun _ _ => ⟨hv, by rw [hm]; simp, ?_⟩, ?_⟩
    · rw [hv]; simp [mem_read_ref, pending_char, ha, hk]
    · rw [hm]; simp [mem_read_ref, pending_char, ha, hk]
    · intro b hb; rw [hm]; simp [hb]
    · intro c _ hk'; rw [hk] at hk'; exact absurd hk' (by decide)
  · refine ⟨?_, ?_, fun h => absurd ha h, ?_, ?_⟩
    · rw [hv]; simp [mem_read_ref, pending_char, ha, hk]
    · rw [hm]; simp [mem_read_ref, pending_char, ha, hk]
    · intro _ hk'; rw [hk] at hk'; exact absurd hk' (by decide)
    · intro c _ _ hc hlt
      have hcode : Int.toNat (s.con.getc (s.con.queries + 1) % 65536) = c := by
        rw [hc]; omega
      refine ⟨hv, by rw [hm]; simp, by rw [hm]; simp [hcode], ?_⟩
      intro b h1 h2; rw [hm]; simp [h1, h2]

/-- Instances of C12 on a machine whose keyboard registers hold old values:
with no key pending a read of KBSR returns 0 and clears the register; with the
key `A` pending it returns 0x8000 and leaves KBSR = 0x8000, KBDR = 65; a read of
another address returns the cell. -/
theorem mem_read_refines_witness :
    ((mem_read MR_KBSR st_kbd_idle).1 = 0
        ∧ (mem_read MR_KBSR st_kbd_idle).2.memory MR_KBSR = 0)
      ∧ ((mem_read MR_KBSR st_kbd_key).1 = 0x8000
        ∧ (mem_read MR_KBSR st_kbd_key).2.memory MR_KBSR = 0x8000
        ∧ (mem_read MR_KBSR st_kbd_key).2.memory MR_KBDR = 65)
      ∧ (mem_read MR_KBDR st_kbd_key).1 = 0x5678 := by
  refine ⟨?_, ?_, ?_⟩
  · obtain ⟨h1, h2, _⟩ :=
      (mem_read_refines MR_KBSR st_kbd_idle).2.2.2.1 rfl (by decide)
    exact ⟨h1, h2⟩
  · obtain ⟨h1, h2, h3, _⟩ :=
      (mem_read_refines MR_KBSR st_kbd_key).2.2.2.2 65 rfl (by decide) (by decide) (by decide)
    exact ⟨h1, h2, h3⟩
  · exact ((mem_read_refines MR_KBDR st_kbd_key).2.2.1 (by decide)).1.trans (by decide)

/-! ## The condition flag across instructions -/

theorem update_flags_cond (r : Nat) (t : State) :
    (update_flags r t).reg R_COND = flag_for (t.reg r) := by
  rw [update_flags_eq]; simp

theorem flag_for_ok (v : Nat) : flag_ok (flag_for v) := flag_for_cases v

theorem op_br_cond (w : Nat) (t : State) : (op_br w t).reg R_COND = t.reg R_COND := by
  rw [op_br_eq]; split <;> simp

theorem op_jmp_cond (w : Nat) (t : State) : (op_jmp w t).reg R_COND = t.reg R_COND := by
  simp [op_jmp]

theorem op_jsr_cond (w : Nat) (t : State) : (op_jsr w t).reg R_COND = t.reg R_COND := by
  rw [op_jsr_eq]; split <;> simp

theorem op_st_cond (w : Nat) (t : State) : (op_st w t).reg R_COND = t.reg R_COND := by
  simp [op_st]

theorem op_sti_cond (w : Nat) (t : State) : (op_sti w t).reg R_COND = t.reg R_COND := by
  simp [op_sti]

theorem op_str_cond (w : Nat) (t : State) : (op_str w t).reg R_COND = t.reg R_COND := by
  simp [op_str]

/-- A trap other than GETC and IN leaves the flag alone, however it ends. -/
theorem op_trap_cond_keeps (w : Nat) (t : State)
    (h1 : bits w 7 0 ≠ TRAP_GETC) (h2 : bits w 7 0 ≠ TRAP_IN) :
    (op_trap w t).state.reg R_COND = t.reg R_COND := by
  unfold op_trap
  simp only [field_7_0, h1, h2, if_false]
  split_ifs <;> simp [StepResult.state]

theorem op_trap_getc (w : Nat) (t : State) (h : bits w 7 0 = TRAP_GETC) :
    op_trap w t = StepResult.next (update_flags R_R0
      (setReg { setReg t R_R7 (t.reg R_PC) with con := (cin_char t.con).2 } R_R0
        (char_to_u16 (cin_char t.con).1))) := by
  simp only [op_trap, field_7_0, h, if_true, setReg_con]

theorem op_trap_in (w : Nat) (t : State) (h : bits w 7 0 = TRAP_IN) :
    op_trap w t = StepResult.next (update_flags R_R0
      (setReg { setReg t R_R7 (t.reg R_PC) with
          con := cout_char 10 (cout_char (cin_char (cout_str IN_PROMPT t.con)).1
            (cin_char (cout_str IN_PROMPT t.con)).2) } R_R0
        (char_to_u16 (cin_char (cout_str IN_PROMPT t.con)).1))) := by
  have e0 : ¬ (TRAP_IN = TRAP_GETC) := by decide
  have e1 : ¬ (TRAP_IN = TRAP_OUT) := by decide
  have e2 : ¬ (TRAP_IN = TRAP_PUTS) := by decide
  simp only [op_trap, field_7_0, h, e0, e1, e2, if_true, if_false, setReg_con]

/-- Any trap leaves the flag alone or sets it from a value. -/
theorem op_trap_cond (w : Nat) (t : State) :
    (op_trap w t).state.reg R_COND = t.reg R_COND
      ∨ ∃ v, (op_trap w t).state.reg R_COND = flag_for v := by
  by_cases h1 : bits w 7 0 = TRAP_GETC
  · rw [op_trap_getc w t h1]
    exact Or.inr ⟨_, update_flags_cond _ _⟩
  · by_cases h2 : bits w 7 0 = TRAP_IN
    · rw [op_trap_in w t h2]
      exact Or.inr ⟨_, update_flags_cond _ _⟩
    · exact Or.inl (op_trap_cond_keeps w t h1 h2)

/-- Case analysis on the `switch`: a property that holds of the result of every
handler and of the error holds of `execute`. -/
theorem execute_elim (w : Nat) (t : State) (P : StepResult → Prop)
    (hadd : P (StepResult.next (op_add w t))) (hand : P (StepResult.next (op_and w t)))
    (hnot : P (StepResult.next (op_not w t))) (hbr : P (StepResult.next (op_br w t)))
    (hjmp : P (StepResult.next (op_jmp w t))) (hjsr : P (StepResult.next (op_jsr w t)))
    (hld : P (StepResult.next (op_ld w t))) (hldi : P (StepResult.next (op_ldi w t)))
    (hldr : P (StepResult.next (op_ldr w t))) (hlea : P (StepResult.next (op_lea w t)))
    (hst : P (StepResult.next (op_st w t))) (hsti : P (StepResult.next (op_sti w t)))
    (hstr : P (StepResult.next (op_str w t))) (htrap : P (op_trap w t))
    (hbad : P (StepResult.bad_instruction t)) : P (execute w t) := by
  unfold execute
  dsimp only
  by_cases h0 : w >>> 12 = OP_ADD
  · rw [if_pos h0]; exact hadd
  rw [if_neg h0]
  by_cases h1 : w >>> 12 = OP_AND
  · rw [if_pos h1]; exact hand
  rw [if_neg h1]
  by_cases h2 : w >>> 12 = OP_NOT
  · rw [if_pos h2]; exact hnot
  rw [if_neg h2]
  by_cases h3 : w >>> 12 = OP_BR
  · rw [if_pos h3]; exact hbr
  rw [if_neg h3]
  by_cases h4 : w >>> 12 = OP_JMP
  · rw [if_pos h4]; exact hjmp
  rw [if_neg h4]
  by_cases h5 : w >>> 12 = OP_JSR
  · rw [if_pos h5]; exact hjsr
  rw [if_neg h5]
  by_cases h6 : w >>> 12 = OP_LD
  · rw [if_pos h6]; exact hld
  rw [if_neg h6]
  by_cases h7 : w >>> 12 = OP_LDI
  · rw [if_pos h7]; exact hldi
  rw [if_neg h7]
  by_cases h8 : w >>> 12 = OP_LDR
  · rw [if_pos h8]; exact hldr
  rw [if_neg h8]
  by_cases h9 : w >>> 12 = OP_LEA
  · rw [if_pos h9]; exact hlea
  rw [if_neg h9]
  by_cases h10 : w >>> 12 = OP_ST
  · rw [if_pos h10]; exact hst
  rw [if_neg h10]
  by_cases h11 : w >>> 12 = OP_STI
  · rw [if_pos h11]; exact hsti
  rw [if_neg h11]
  by_cases h12 : w >>> 12 = OP_STR
  · rw [if_pos h12]; exact hstr
  rw [if_neg h12]
  by_cases h13 : w >>> 12 = OP_TRAP
  · rw [if_pos h13]; exact htrap
  rw [if_neg h13]
  exact hbad

theorem op_add_cond (w : Nat) (t : State) :
    ∃ v, (op_add w t).reg R_COND = flag_for v := by
  rw [op_add_eq]; exact ⟨_, update_flags_cond _ _⟩

theorem op_and_cond (w : Nat) (t : State) :
    ∃ v, (op_and w t).reg R_COND = flag_for v := by
  rw [op_and_eq]; exact ⟨_, update_flags_cond _ _⟩

/-- Whatever the instruction and however the iteration ends, the flag is left
alone or set from a value. -/
theorem execute_cond (w : Nat) (t : State) :
    (execute w t).state.reg R_COND = t.reg R_COND
      ∨ ∃ v, (execute w t).state.reg R_COND = flag_for v := by
  apply execute_elim w t
    (fun r => r.state.reg R_COND = t.reg R_COND ∨ ∃ v, r.state.reg R_COND = flag_for v)
  · exact Or.inr (op_add_cond w t)
  · exact Or.inr (op_and_cond w t)
  · exact Or.inr ⟨_, update_flags_cond _ _⟩
  · exact Or.inl (op_br_cond _ _)
  · exact Or.inl (op_jmp_cond _ _)
  · exact Or.inl (op_jsr_cond _ _)
  · exact Or.inr ⟨_, update_flags_cond _ _⟩
  · exact Or.inr ⟨_, update_flags_cond _ _⟩
  · exact Or.inr ⟨_, update_flags_cond _ _⟩
  · exact Or.inr ⟨_, update_flags_cond _ _⟩
  · exact Or.inl (op_st_cond _ _)
  · exact Or.inl (op_sti_cond _ _)
  · exact Or.inl (op_str_cond _ _)
  · exact op_trap_cond _ _
  · exact Or.inl rfl

theorem step_cond (s : State) :
    (step s).state.reg R_COND = s.reg R_COND
      ∨ ∃ v, (step s).state.reg R_COND = flag_for v := by
  rw [step_eq]
  have h := execute_cond (fetched s)
    (setReg (mem_read (s.reg R_PC) s).2 R_PC (u16 (s.reg R_PC + 1)))
  simpa using h

theorem flag_ok_bits (c : Nat) (h : flag_ok c) : c ≠ 0 ∧ c < 8 ∧ c &&& (c - 1) = 0 := by
  rcases h with h | h | h <;> subst h <;> decide

/-- C13. In every state reachable from an initial state (program counter
0x3000, flag ZERO, arbitrary memory, general registers and console) by completed
fetch-decode-execute steps, the condition register holds exactly one of
POSITIVE (1), ZERO (2), NEGATIVE (4): it is not zero, has no bit outside the low
three and no two bits set. -/
theorem reachable_flag (s : State) (h : Reachable s) :
    (s.reg R_COND = FL_POS ∨ s.reg R_COND = FL_ZRO ∨ s.reg R_COND = FL_NEG)
      ∧ s.reg R_COND ≠ 0 ∧ s.reg R_COND < 8
      ∧ s.reg R_COND &&& (s.reg R_COND - 1) = 0 := by
  have hok : flag_ok (s.reg R_COND) := by
    induction h with
    | start s _ hc => exact Or.inr (Or.inl hc)
    | next s s1 _ hstep ih =>
      have hc := step_cond s
      rw [hstep] at hc
      rcases hc with hc | ⟨v, hc⟩
      · have : s1.reg R_COND = s.reg R_COND := hc
        rw [this]; exact ih
      · have : s1.reg R_COND = flag_for v := hc
        rw [this]; exact flag_for_ok v
  exact ⟨hok, flag_ok_bits _ hok⟩

/-- An instance of C13: the initial state `st_add_imm` and the state after its
first instruction are reachable, and the flag after `ADD R0, R0, #-1` is one of
the three values (it is NEGATIVE). -/
theorem reachable_flag_witness :
    (Reachable st_add_imm ∧ Reachable (step st_add_imm).state)
      ∧ ((step st_add_imm).state.reg R_COND = FL_POS
          ∨ (step st_add_imm).state.reg R_COND = FL_ZRO
          ∨ (step st_add_imm).state.reg R_COND = FL_NEG)
      ∧ (step st_add_imm).state.reg R_COND = FL_NEG := by
  have h0 : Reachable st_add_imm := Reachable.start _ (by decide) (by decide)
  have h1 : Reachable (step st_add_imm).state := Reachable.next _ _ h0 rfl
  exact ⟨⟨h0, h1⟩, (reachable_flag _ h1).1, by decide⟩

/-- C14. When the fetched instruction is ST, STI, STR, BR, JMP, JSR/JSRR, or a
TRAP with vector OUT (0x21), PUTS (0x22), PUTSP (0x24) or HALT (0x25), the
condition flag after the step equals the flag before it (however the step
ends, and in particular in the state of a completed step). -/
theorem flag_unchanged (s : State)
    (h : fetched s >>> 12 = OP_ST ∨ fetched s >>> 12 = OP_STI ∨ fetched s >>> 12 = OP_STR
      ∨ fetched s >>> 12 = OP_BR ∨ fetched s >>> 12 = OP_JMP ∨ fetched s >>> 12 = OP_JSR
      ∨ (fetched s >>> 12 = OP_TRAP
          ∧ (bits (fetched s) 7 0 = TRAP_OUT ∨ bits (fetched s) 7 0 = TRAP_PUTS
            ∨ bits (fetched s) 7 0 = TRAP_PUTSP ∨ bits (fetched s) 7 0 = TRAP_HALT))) :
    (step s).state.reg R_COND = s.reg R_COND
      ∧ ∀ s', step s = StepResult.next s' → s'.reg R_COND = s.reg R_COND := by
  have hmain : (step s).state.reg R_COND = s.reg R_COND := by
    rw [step_eq]
    have ht : (setReg (mem_read (s.reg R_PC) s).2 R_PC (u16 (s.reg R_PC + 1))).reg R_COND
        = s.reg R_COND := by simp
    rw [← ht]
    rcases h with h | h | h | h | h | h | ⟨h, hv⟩
    · have : execute (fetched s) (setReg (mem_read (s.reg R_PC) s).2 R_PC (u16 (s.reg R_PC + 1)))
          = StepResult.next (op_st (fetched s)
              (setReg (mem_read (s.reg R_PC) s).2 R_PC (u16 (s.reg R_PC + 1)))) := by
        simp [execute, h]
      rw [this]; exact op_st_cond _ _
    · have : execute (fetched s) (setReg (mem_read (s.reg R_PC) s).2 R_PC (u16 (s.reg R_PC + 1)))
          = StepResult.next (op_sti (fetched s)
              (setReg (mem_read (s.reg R_PC) s).2 R_PC (u16 (s.reg R_PC + 1)))) := by
        simp [execute, h]
      rw [this]; exact op_sti_cond _ _
    · have : execute (fetched s) (setReg (mem_read (s.reg R_PC) s).2 R_PC (u16 (s.reg R_PC + 1)))
          = StepResult.next (op_str (fetched s)
              (setReg (mem_read (s.reg R_PC) s).2 R_PC (u16 (s.reg R_PC + 1)))) := by
        simp [execute, h]
      rw [this]; exact op_str_cond _ _
    · have : execute (fetched s) (setReg (mem_read (s.reg R_PC) s).2 R_PC (u16 (s.reg R_PC + 1)))
          = StepResult.next (op_br (fetched s)
              (setReg (mem_read (s.reg R_PC) s).2 R_PC (u16 (s.reg R_PC + 1)))) := by
        simp [execute, h]
      rw [this]; exact op_br_cond _ _
    · have : execute (fetched s) (setReg (mem_read (s.reg R_PC) s).2 R_PC (u16 (s.reg R_PC + 1)))
          = StepResult.next (op_jmp (fetched s)
              (setReg (mem_read (s.reg R_PC) s).2 R_PC (u16 (s.reg R_PC + 1)))) := by
        simp [execute, h]
      rw [this]; exact op_jmp_cond _ _
    · have : execute (fetched s) (setReg (mem_read (s.reg R_PC) s).2 R_PC (u16 (s.reg R_PC + 1)))
          = StepResult.next (op_jsr (fetched s)
              (setReg (mem_read (s.reg R_PC) s).2 R_PC (u16 (s.reg R_PC + 1)))) := by
        simp [execute, h]
      rw [this]; exact op_jsr_cond _ _
    · have : execute (fetched s) (setReg (mem_read (s.reg R_PC) s).2 R_PC (u16 (s.reg R_PC + 1)))
          = op_trap (fetched s)
              (setReg (mem_read (s.reg R_PC) s).2 R_PC (u16 (s.reg R_PC + 1))) := by
        simp [execute, h]
      rw [this]
      apply op_trap_cond_keeps
      · rcases hv with hv | hv | hv | hv <;> rw [hv] <;> decide
      · rcases hv with hv | hv | hv | hv <;> rw [hv] <;> decide
  refine ⟨hmain, fun s' hs => ?_⟩
  rw [hs] at hmain
  exact hmain

/-- Instances of C14 with the flag NEGATIVE (ZERO for the store and the
branch) before the step: after `ST`, `BRz`, `JMP`, `JSR`, `TRAP OUT`,
`TRAP PUTS`, `TRAP PUTSP` and `TRAP HALT` the flag is what it was. -/
theorem flag_unchanged_witness :
    (fetched st_st >>> 12 = OP_ST ∧ fetched st_br_z >>> 12 = OP_BR
        ∧ fetched st_jmp >>> 12 = OP_JMP ∧ fetched st_jsr >>> 12 = OP_JSR
        ∧ (fetched st_out >>> 12 = OP_TRAP ∧ bits (fetched st_out) 7 0 = TRAP_OUT)
        ∧ (fetched st_puts >>> 12 = OP_TRAP ∧ bits (fetched st_puts) 7 0 = TRAP_PUTS)
        ∧ (fetched st_putsp >>> 12 = OP_TRAP ∧ bits (fetched st_putsp) 7 0 = TRAP_PUTSP)
        ∧ (fetched st_halt >>> 12 = OP_TRAP ∧ bits (fetched st_halt) 7 0 = TRAP_HALT))
      ∧ (step st_st).state.reg R_COND = FL_ZRO
      ∧ (step st_br_z).state.reg R_COND = FL_ZRO
      ∧ (step st_jmp).state.reg R_COND = FL_NEG
      ∧ (step st_jsr).state.reg R_COND = FL_ZRO
      ∧ (step st_out).state.reg R_COND = FL_NEG
      ∧ (step st_puts).state.reg R_COND = FL_NEG
      ∧ (step st_putsp).state.reg R_COND = FL_NEG
      ∧ (step st_halt).state.reg R_COND = FL_POS := by
  refine ⟨by decide, ?_, ?_, ?_, ?_, ?_, ?_, ?_, ?_⟩
  · exact (flag_unchanged st_st (Or.inl (by decide))).1
  · exact (flag_unchanged st_br_z (Or.inr (Or.inr (Or.inr (Or.inl (by decide)))))).1
  · exact (flag_unchanged st_jmp (Or.inr (Or.inr (Or.inr (Or.inr (Or.inl (by decide))))))).1
  · exact (flag_unchanged st_jsr
      (Or.inr (Or.inr (Or.inr (Or.inr (Or.inr (Or.inl (by decide)))))))).1
  · exact (flag_unchanged st_out (Or.inr (Or.inr (Or.inr (Or.inr (Or.inr (Or.inr
      ⟨by decide, Or.inl (by decide)⟩))))))).1
  · exact (flag_unchanged st_puts (Or.inr (Or.inr (Or.inr (Or.inr (Or.inr (Or.inr
      ⟨by decide, Or.inr (Or.inl (by decide))⟩))))))).1
  · exact (flag_unchanged st_putsp (Or.inr (Or.inr (Or.inr (Or.inr (Or.inr (Or.inr
      ⟨by decide, Or.inr (Or.inr (Or.inl (by decide)))⟩))))))).1
  · exact (flag_unchanged st_halt (Or.inr (Or.inr (Or.inr (Or.inr (Or.inr (Or.inr
      ⟨by decide, Or.inr (Or.inr (Or.inr (by decide)))⟩))))))).1

/-! ## The string traps PUTS and PUTSP -/

/-- The PUTS loop, started at `c` with the first zero word at `c + n` inside the
array, writes the low bytes of the `n` words before it and ends there. -/
theorem puts_loop_spec (memory : Nat → Nat) (n : Nat) :
    ∀ (room c : Nat) (con : Console), n < room →
      (∀ a, c ≤ a → a < c + n → memory a ≠ 0) → memory (c + n) = 0 →
      puts_loop memory room c con
        = ({ con with out := con.out ++ (List.range' c n).map (fun a => memory a % 256) },
            true) := by
  induction n with
  | zero =>
    intro room c con hroom _ hz
    obtain ⟨k, rfl⟩ : ∃ k, room = k + 1 := ⟨room - 1, by omega⟩
    have hz' : memory c = 0 := by simpa using hz
    simp [puts_loop, hz']
  | succ n ih =>
    intro room c con hroom hnz hz
    obtain ⟨k, rfl⟩ : ∃ k, room = k + 1 := ⟨room - 1, by omega⟩
    have hc : memory c ≠ 0 := hnz c (Nat.le_refl c) (by omega)
    have hrec := ih k (c + 1) (cout_char (memory c) con) (by omega)
      (fun a h1 h2 => hnz a (by omega) (by omega))
      (by rw [show c + 1 + n = c + (n + 1) by omega]; exact hz)
    simp only [puts_loop, hc, ne_eq, not_false_eq_true, if_true]
    rw [hrec, List.range'_succ]
    simp [cout_char]

/-- The PUTSP loop, started at `c` with the first zero word at `c + n` inside
the array, writes the characters packed in the `n` words before it and ends
there. -/
theorem putsp_loop_spec (memory : Nat → Nat) (n : Nat) :
    ∀ (room c : Nat) (con : Console), n < room →
      (∀ a, c ≤ a → a < c + n → memory a ≠ 0) → memory (c + n) = 0 →
      putsp_loop memory room c con
        = ({ con with out := con.out
              ++ ((List.range' c n).map (fun a => packed_chars (memory a))).flatten },
            true) := by
  induction n with
  | zero =>
    intro room c con hroom _ hz
    obtain ⟨k, rfl⟩ : ∃ k, room = k + 1 := ⟨room - 1, by omega⟩
    have hz' : memory c = 0 := by simpa using hz
    simp [putsp_loop, hz']
  | succ n ih =>
    intro room c con hroom hnz hz
    obtain ⟨k, rfl⟩ : ∃ k, room = k + 1 := ⟨room - 1, by omega⟩
    have hc : memory c ≠ 0 := hnz c (Nat.le_refl c) (by omega)
    have hz1 : memory (c + 1 + n) = 0 := by
      rw [show c + 1 + n = c + (n + 1) by omega]; exact hz
    have hnz1 : ∀ a, c + 1 ≤ a → a < c + 1 + n → memory a ≠ 0 :=
      fun a h1 h2 => hnz a (by omega) (by omega)
    simp only [putsp_loop, hc, ne_eq, not_false_eq_true, if_true]
    rw [List.range'_succ, List.map_cons, List.flatten_cons]
    by_cases h2 : memory c / 256 % 256 = 0
    · have h2' : memory c >>> 8 % 256 = 0 := by
        rw [Nat.shiftRight_eq_div_pow]; exact h2
      rw [ih k (c + 1) _ (by omega) hnz1 hz1]
      simp [cout_char, packed_chars, h2, h2', and_FF]
    · have h2' : ¬ memory c >>> 8 % 256 = 0 := by
        rw [Nat.shiftRight_eq_div_pow]; exact h2
      rw [ih k (c + 1) _ (by omega) hnz1 hz1]
      simp [cout_char, packed_chars, h2, h2', and_FF, Nat.shiftRight_eq_div_pow]

/-- The state in which a TRAP handler starts when the word was fetched from a
plain cell: only the program counter has moved. -/
theorem step_trap (s : State) (hop : fetched s >>> 12 = OP_TRAP) :
    step s = op_trap (fetched s) (setReg s R_PC (u16 (s.reg R_PC + 1))) := by
  rw [(step_plain s (by rw [hop]; decide) (by rw [hop]; decide)).1]
  simp [execute, hop]

theorem op_trap_puts (w : Nat) (t : State) (h : bits w 7 0 = TRAP_PUTS) :
    op_trap w t =
      if (puts_loop t.memory (MEMORY_MAX - t.reg R_R0) (t.reg R_R0) t.con).2 = true then
        StepResult.next { setReg t R_R7 (t.reg R_PC) with
          con := (puts_loop t.memory (MEMORY_MAX - t.reg R_R0) (t.reg R_R0) t.con).1 }
      else
        StepResult.out_of_bounds { setReg t R_R7 (t.reg R_PC) with
          con := (puts_loop t.memory (MEMORY_MAX - t.reg R_R0) (t.reg R_R0) t.con).1 } := by
  have e0 : ¬ (TRAP_PUTS = TRAP_GETC) := by decide
  have e1 : ¬ (TRAP_PUTS = TRAP_OUT) := by decide
  have e7 : (R_R0 = R_R7) = False := by simp
  simp only [op_trap, field_7_0, h, e0, e1, if_true, if_false, setReg_con, setReg_memory,
    setReg_reg, e7]

theorem op_trap_putsp (w : Nat) (t : State) (h : bits w 7 0 = TRAP_PUTSP) :
    op_trap w t =
      if (putsp_loop t.memory (MEMORY_MAX - t.reg R_R0) (t.reg R_R0) t.con).2 = true then
        StepResult.next { setReg t R_R7 (t.reg R_PC) with
          con := (putsp_loop t.memory (MEMORY_MAX - t.reg R_R0) (t.reg R_R0) t.con).1 }
      else
        StepResult.out_of_bounds { setReg t R_R7 (t.reg R_PC) with
          con := (putsp_loop t.memory (MEMORY_MAX - t.reg R_R0) (t.reg R_R0) t.con).1 } := by
  have e0 : ¬ (TRAP_PUTSP = TRAP_GETC) := by decide
  have e1 : ¬ (TRAP_PUTSP = TRAP_OUT) := by decide
  have e2 : ¬ (TRAP_PUTSP = TRAP_PUTS) := by decide
  have e3 : ¬ (TRAP_PUTSP = TRAP_IN) := by decide
  have e7 : (R_R0 = R_R7) = False := by simp
  simp only [op_trap, field_7_0, h, e0, e1, e2, e3, if_true, if_false, setReg_con,
    setReg_memory, setReg_reg, e7]

/-- C15, as amended. When the fetched word is TRAP with vector 0x24 (PUTSP) and
`z` is the first address from register 0 on (inside memory) holding the word
zero: the step completes and has written, for each word from the address in
register 0 up to `z - 1` in order, its low byte and then its high byte if that
is nonzero; it stops at the zero word `z` and writes nothing for it or for any
later word.  A word whose low byte is zero but which is not zero does not stop
the loop: its low byte 0 is written like any other. -/
theorem putsp_step (s : State) (hop : fetched s >>> 12 = OP_TRAP)
    (hvec : bits (fetched s) 7 0 = TRAP_PUTSP) (z : Nat)
    (hz1 : s.reg R_R0 ≤ z) (hz2 : z ≤ 0xFFFF) (hz3 : s.memory z = 0)
    (hmin : ∀ a, s.reg R_R0 ≤ a → a < z → s.memory a ≠ 0) :
    ∃ s', step s = StepResult.next s'
      ∧ s'.con.out = s.con.out
          ++ ((List.range' (s.reg R_R0) (z - s.reg R_R0)).map
              (fun a => packed_chars (s.memory a))).flatten := by
  have hM : MEMORY_MAX = 65536 := rfl
  have h0 : (setReg s R_PC (u16 (s.reg R_PC + 1))).reg R_R0 = s.reg R_R0 := by simp
  have hloop := putsp_loop_spec s.memory (z - s.reg R_R0) (MEMORY_MAX - s.reg R_R0)
    (s.reg R_R0) s.con (by omega) (fun a h1 h2 => hmin a h1 (by omega))
    (by rw [Nat.add_sub_cancel' hz1]; exact hz3)
  rw [step_trap s hop, op_trap_putsp _ _ hvec, h0, setReg_memory, setReg_con, hloop]
  exact ⟨_, rfl, rfl⟩

/-- The claim C15 fails on a word whose low byte is zero and whose high byte is
not: with R0 pointing to the words 0x4100, 0x0042, 0 the trap does not stop at
the first word (low byte zero) but writes the bytes 0, `A`, `B`. -/
theorem putsp_low_byte_zero_written :
    (fetched st_putsp_low0 >>> 12 = OP_TRAP ∧ bits (fetched st_putsp_low0) 7 0 = TRAP_PUTSP)
      ∧ st_putsp_low0.memory (st_putsp_low0.reg R_R0) % 256 = 0
      ∧ st_putsp_low0.con.out = []
      ∧ (step st_putsp_low0).completed = true
      ∧ (step st_putsp_low0).state.con.out = [0, 0x41, 0x42] := by
  decide

/-- An instance of C15 as amended: with R0 pointing to the words 0x6948,
0x0021, 0 the trap writes `H`, `i`, `!` and stops at the zero word 0x4002. -/
theorem putsp_step_witness :
    ((fetched st_putsp >>> 12 = OP_TRAP ∧ bits (fetched st_putsp) 7 0 = TRAP_PUTSP)
        ∧ st_putsp.reg R_R0 ≤ 0x4002 ∧ 0x4002 ≤ 0xFFFF ∧ st_putsp.memory 0x4002 = 0
        ∧ (∀ a, st_putsp.reg R_R0 ≤ a → a < 0x4002 → st_putsp.memory a ≠ 0))
      ∧ ∃ s', step st_putsp = StepResult.next s' ∧ s'.con.out = [0x48, 0x69, 0x21] := by
  have hmin : ∀ a, st_putsp.reg R_R0 ≤ a → a < 0x4002 → st_putsp.memory a ≠ 0 := by
    intro a h1 h2
    have h1' : 0x4000 ≤ a := h1
    have ha : a = 0x4000 ∨ a = 0x4001 := by omega
    rcases ha with ha | ha <;> subst ha <;> decide
  refine ⟨⟨by decide, by decide, by decide, by decide, hmin⟩, ?_⟩
  obtain ⟨s', hs, ho⟩ :=
    putsp_step st_putsp (by decide) (by decide) 0x4002 (by decide) (by decide) (by decide) hmin
  exact ⟨s', hs, ho.trans (by decide)⟩

/-- C16. When the fetched word is TRAP with vector 0x22 (PUTS) and some address
from register 0 up to 0xFFFF holds a zero word: with `z` the least such address,
the step completes and has written exactly the low bytes of memory[R0],
memory[R0 + 1], ..., memory[z - 1] in address order (nothing when
memory[R0] = 0); it changes no memory cell and no register other than the
program counter and register 7. -/
theorem puts_step (s : State) (hop : fetched s >>> 12 = OP_TRAP)
    (hvec : bits (fetched s) 7 0 = TRAP_PUTS)
    (hz : ∃ a, s.reg R_R0 ≤ a ∧ a ≤ 0xFFFF ∧ s.memory a = 0) :
    ∃ z, (s.reg R_R0 ≤ z ∧ z ≤ 0xFFFF ∧ s.memory z = 0
        ∧ ∀ a, s.reg R_R0 ≤ a → a < z → s.memory a ≠ 0)
      ∧ ∃ s', step s = StepResult.next s'
        ∧ s'.con.out = s.con.out
            ++ (List.range' (s.reg R_R0) (z - s.reg R_R0)).map (fun a => s.memory a % 256)
        ∧ (s.memory (s.reg R_R0) = 0 → s'.con.out = s.con.out)
        ∧ s'.memory = s.memory
        ∧ (∀ r, r < 7 → s'.reg r = s.reg r)
        ∧ s'.reg R_COND = s.reg R_COND
        ∧ s'.reg R_R7 = (s.reg R_PC + 1) % 2 ^ 16
        ∧ s'.reg R_PC = (s.reg R_PC + 1) % 2 ^ 16 := by
  have hM : MEMORY_MAX = 65536 := rfl
  obtain ⟨hz1, hz2, hz3⟩ := Nat.find_spec hz
  have hmin : ∀ a, s.reg R_R0 ≤ a → a < Nat.find hz → s.memory a ≠ 0 := by
    intro a h1 h2 h3
    exact Nat.find_min hz h2 ⟨h1, by omega, h3⟩
  have h0 : (setReg s R_PC (u16 (s.reg R_PC + 1))).reg R_R0 = s.reg R_R0 := by simp
  have hloop := puts_loop_spec s.memory (Nat.find hz - s.reg R_R0) (MEMORY_MAX - s.reg R_R0)
    (s.reg R_R0) s.con (by omega) (fun a h1 h2 => hmin a h1 (by omega))
    (by rw [Nat.add_sub_cancel' hz1]; exact hz3)
  have hstep := step_trap s hop
  rw [op_trap_puts _ _ hvec, h0, setReg_memory, setReg_con, hloop] at hstep
  refine ⟨Nat.find hz, ⟨hz1, hz2, hz3, hmin⟩, _, hstep, rfl, ?_, rfl, ?_, by simp,
    by simp [u16], by simp [u16]⟩
  · intro hzero
    have hle : Nat.find hz ≤ s.reg R_R0 :=
      Nat.find_min' hz ⟨Nat.le_refl _, by omega, hzero⟩
    have : Nat.find hz - s.reg R_R0 = 0 := by omega
    simp [this]
  · intro r hr
    have h1 : r ≠ R_PC := by simp only [R_PC]; omega
    have h2 : r ≠ R_R7 := by simp only [R_R7]; omega
    simp [h1, h2]

/-- An instance of C16: with R0 pointing to the words 0x0148, 0x0069, 0 the
trap writes the low bytes `H`, `i`; memory is unchanged and the flag stays
NEGATIVE. -/
theorem puts_step_witness :
    ((fetched st_puts >>> 12 = OP_TRAP ∧ bits (fetched st_puts) 7 0 = TRAP_PUTS)
        ∧ ∃ a, st_puts.reg R_R0 ≤ a ∧ a ≤ 0xFFFF ∧ st_puts.memory a = 0)
      ∧ ∃ s', step st_puts = StepResult.next s' ∧ s'.con.out = [0x48, 0x69]
          ∧ s'.memory = st_puts.memory ∧ s'.reg R_COND = FL_NEG := by
  have hz : ∃ a, st_puts.reg R_R0 ≤ a ∧ a ≤ 0xFFFF ∧ st_puts.memory a = 0 :=
    ⟨0x4002, by decide, by decide, by decide⟩
  refine ⟨⟨by decide, hz⟩, ?_⟩
  obtain ⟨z, _, s', hs, _, _, hm, _, hc, _⟩ := puts_step st_puts (by decide) (by decide) hz
  have ho : (step st_puts).state.con.out = [0x48, 0x69] := by decide
  rw [hs] at ho
  exact ⟨s', hs, ho, hm, hc.trans (by decide)⟩

/-! ## The state at an illegal instruction, and unassigned trap vectors -/

theorem mem_read_con_out (a : Nat) (s : State) : (mem_read a s).2.con.out = s.con.out := by
  by_cases ha : a = MR_KBSR
  · by_cases hk : s.con.key s.con.queries = true <;>
      simp [mem_read, check_key, getchar, mem_write, ha, hk]
  · rw [mem_read_of_ne a s ha]

/-- C17, as amended. When the fetched word has a reserved or unused opcode
(1000 or 1101), the step aborts before any handler runs: at the abort the eight
general registers, the condition flag, `running` and the console output are
what they were before the step, and so is every memory cell, except the two
keyboard registers when the word was fetched from 0xFE00.  The program counter
is not what it was: the fetch has already incremented it to
(old PC + 1) mod 2^16. -/
theorem bad_instruction_state (s : State)
    (h : fetched s >>> 12 = OP_RTI ∨ fetched s >>> 12 = OP_RES) :
    ∃ e, step s = StepResult.bad_instruction e
      ∧ (∀ r, r < 8 → e.reg r = s.reg r)
      ∧ e.reg R_COND = s.reg R_COND
      ∧ e.reg R_PC = (s.reg R_PC + 1) % 2 ^ 16
      ∧ (s.reg R_PC < 65536 → e.reg R_PC ≠ s.reg R_PC)
      ∧ (∀ a, a ≠ MR_KBSR → a ≠ MR_KBDR → e.memory a = s.memory a)
      ∧ (s.reg R_PC ≠ MR_KBSR → e.memory = s.memory)
      ∧ e.running = s.running
      ∧ e.con.out = s.con.out := by
  have hstep : step s = StepResult.bad_instruction
      (setReg (mem_read (s.reg R_PC) s).2 R_PC (u16 (s.reg R_PC + 1))) := by
    rw [step_eq]
    rcases h with h | h <;> simp [execute, h]
  refine ⟨_, hstep, ?_, by simp, by simp [u16], ?_, ?_, ?_, by simp, ?_⟩
  · intro r hr
    have : r ≠ R_PC := by simp only [R_PC]; omega
    simp [this]
  · intro hpc
    simp only [setReg_reg, if_true, u16]
    omega
  · intro a h1 h2
    exact mem_read_memory (s.reg R_PC) a s (Or.inr ⟨h1, h2⟩)
  · intro hpc
    rw [setReg_memory, mem_read_of_ne _ _ hpc]
  · rw [setReg_con]; exact mem_read_con_out _ _

/-- The claim C17 fails on the program counter: with the unused opcode RTI
(word 0x8000) at 0x3000, the step raises the error in a state whose program
counter is 0x3001, not 0x3000. -/
theorem bad_instruction_moves_pc :
    fetched st_rti >>> 12 = OP_RTI
      ∧ step st_rti = StepResult.bad_instruction (step st_rti).state
      ∧ st_rti.reg R_PC = 0x3000
      ∧ (step st_rti).state.reg R_PC = 0x3001 :=
  ⟨by decide, rfl, by decide, by decide⟩

/-- Instances of C17 as amended: at the abort on the words 0x8000 and 0xD000
fetched at 0x3000 the program counter is 0x3001 and memory is unchanged. -/
theorem bad_instruction_state_witness :
    (fetched st_rti >>> 12 = OP_RTI ∧ fetched st_res >>> 12 = OP_RES)
      ∧ (∃ e, step st_rti = StepResult.bad_instruction e ∧ e.reg R_PC = 0x3001
          ∧ e.memory = st_rti.memory)
      ∧ (∃ e, step st_res = StepResult.bad_instruction e ∧ e.reg R_PC = 0x3001
          ∧ e.memory = st_res.memory) := by
  refine ⟨by decide, ?_, ?_⟩
  · obtain ⟨e, he, _, _, hpc, _, _, hm, _⟩ := bad_instruction_state st_rti (Or.inl (by decide))
    exact ⟨e, he, hpc.trans (by decide), hm (by decide)⟩
  · obtain ⟨e, he, _, _, hpc, _, _, hm, _⟩ := bad_instruction_state st_res (Or.inr (by decide))
    exact ⟨e, he, hpc.trans (by decide), hm (by decide)⟩

theorem op_trap_unassigned (w : Nat) (t : State)
    (hv : bits w 7 0 < 0x20 ∨ 0x25 < bits w 7 0) :
    op_trap w t = StepResult.next (setReg t R_R7 (t.reg R_PC)) := by
  have e0 : bits w 7 0 ≠ TRAP_GETC := by simp only [TRAP_GETC]; omega
  have e1 : bits w 7 0 ≠ TRAP_OUT := by simp only [TRAP_OUT]; omega
  have e2 : bits w 7 0 ≠ TRAP_PUTS := by simp only [TRAP_PUTS]; omega
  have e3 : bits w 7 0 ≠ TRAP_IN := by simp only [TRAP_IN]; omega
  have e4 : bits w 7 0 ≠ TRAP_PUTSP := by simp only [TRAP_PUTSP]; omega
  have e5 : bits w 7 0 ≠ TRAP_HALT := by simp only [TRAP_HALT]; omega
  simp only [op_trap, field_7_0, e0, e1, e2, e3, e4, e5, if_false]

/-- C19. When the fetched word is TRAP with a vector (low 8 bits) outside
0x20..0x25, the step raises no error and leaves `running` as it was; its only
effects are program counter := (old PC + 1) mod 2^16 and register 7 := the same
value, with registers 0..6, the condition flag, memory and the console
unchanged. -/
theorem trap_unassigned_step (s : State) (hop : fetched s >>> 12 = OP_TRAP)
    (hv : bits (fetched s) 7 0 < 0x20 ∨ 0x25 < bits (fetched s) 7 0) :
    ∃ s', step s = StepResult.next s'
      ∧ s'.running = s.running
      ∧ s'.reg R_PC = (s.reg R_PC + 1) % 2 ^ 16
      ∧ s'.reg R_R7 = (s.reg R_PC + 1) % 2 ^ 16
      ∧ (∀ r, r < 7 → s'.reg r = s.reg r)
      ∧ s'.reg R_COND = s.reg R_COND
      ∧ s'.memory = s.memory
      ∧ s'.con = s.con := by
  have hstep := step_trap s hop
  rw [op_trap_unassigned _ _ hv] at hstep
  refine ⟨_, hstep, rfl, by simp [u16], by simp [u16], ?_, by simp, rfl, rfl⟩
  intro r hr
  have h1 : r ≠ R_PC := by simp only [R_PC]; omega
  have h2 : r ≠ R_R7 := by simp only [R_R7]; omega
  simp [h1, h2]

/-- An instance of C19: the word 0xF0FF (TRAP with vector 0xFF) at 0x3000
leaves the machine running with the program counter and register 7 at 0x3001
and nothing written to the console. -/
theorem trap_unassigned_step_witness :
    (fetched st_trap_ff >>> 12 = OP_TRAP
        ∧ (bits (fetched st_trap_ff) 7 0 < 0x20 ∨ 0x25 < bits (fetched st_trap_ff) 7 0))
      ∧ ∃ s', step st_trap_ff = StepResult.next s' ∧ s'.running = 1
          ∧ s'.reg R_PC = 0x3001 ∧ s'.reg R_R7 = 0x3001 ∧ s'.con.out = [] := by
  refine ⟨⟨by decide, Or.inr (by decide)⟩, ?_⟩
  obtain ⟨s', hs, hr, hpc, h7, _, _, _, hc⟩ :=
    trap_unassigned_step st_trap_ff (by decide) (Or.inr (by decide))
  exact ⟨s', hs, hr, hpc.trans (by decide), h7.trans (by decide), by rw [hc]; rfl⟩

/-! ## Sign extension of arbitrary 16-bit arguments -/

/-- The test of `sign_extend` is the test of bit `bit_count - 1`. -/
theorem sign_test_iff (x k : Nat) : (x >>> k) &&& 1 ≠ 0 ↔ x.testBit k = true := by
  rw [Nat.and_one_is_mod, Nat.shiftRight_eq_div_pow, Nat.testBit_to_div_mod]
  simp

theorem sign_extend_of_set (x bc : Nat) (h : x.testBit (bc - 1) = true) :
    sign_extend x bc = (x ||| (0xFFFF <<< bc)) % 2 ^ 16 := by
  rw [sign_extend, if_pos ((sign_test_iff x (bc - 1)).2 h)]
  rfl

theorem sign_extend_of_clear (x bc : Nat) (h : x.testBit (bc - 1) = false) :
    sign_extend x bc = x := by
  have : ¬ ((x >>> (bc - 1)) &&& 1 ≠ 0) := by
    rw [sign_test_iff]; simp [h]
  rw [sign_extend, if_neg this]

/-- With bit `bc - 1` set, the result has the low `bc` bits of the argument and
ones in all positions from `bc` to 15. -/
theorem testBit_sign_extend_of_set (x bc i : Nat) (h2 : bc ≤ 15)
    (h : x.testBit (bc - 1) = true) :
    (sign_extend x bc).testBit i = if i < bc then x.testBit i else decide (i < 16) := by
  have hF : (0xFFFF : Nat) = 2 ^ 16 - 1 := by norm_num
  rw [sign_extend_of_set x bc h, Nat.testBit_mod_two_pow, Nat.testBit_or,
    Nat.testBit_shiftLeft, hF, Nat.testBit_two_pow_sub_one]
  by_cases hi : i < bc
  · have h16 : i < 16 := by omega
    have hge : ¬ i ≥ bc := by omega
    simp [hi, h16, hge]
  · have hge : i ≥ bc := by omega
    by_cases h16 : i < 16
    · have : i - bc < 16 := by omega
      simp [hi, h16, hge, this]
    · simp [hi, h16]

theorem testBit_eq_of_mod_eq (x y bc i : Nat) (hxy : x % 2 ^ bc = y % 2 ^ bc) (hi : i < bc) :
    x.testBit i = y.testBit i := by
  have hx := Nat.testBit_mod_two_pow x bc i
  have hy := Nat.testBit_mod_two_pow y bc i
  rw [hxy, hy] at hx
  simpa [hi] using hx.symm

/-- C18, as amended. For `bit_count` in 1..15 and values `x`, `y` (16-bit or
not) that agree on their low `bit_count` bits: when bit `bit_count - 1` is 1 the results
are equal, and all bits of the result at positions `bit_count` to 15 are 1, as
that bit; when bit `bit_count - 1` is 0, `sign_extend` returns its argument
unchanged, so the bits at positions `bit_count` and above are those of the
argument; they equal bit `bit_count - 1` when the argument is below
`2 ^ bit_count`, as at every call site, and then the results are equal too. -/
theorem sign_extend_low_bits (bit_count x y : Nat) (h1 : 1 ≤ bit_count)
    (h2 : bit_count ≤ 15)
    (hxy : x % 2 ^ bit_count = y % 2 ^ bit_count) :
    (x.testBit (bit_count - 1) = true →
        sign_extend x bit_count = sign_extend y bit_count
          ∧ ∀ i, bit_count ≤ i → i < 16 →
              (sign_extend x bit_count).testBit i = x.testBit (bit_count - 1))
      ∧ (x.testBit (bit_count - 1) = false →
        sign_extend x bit_count = x ∧ sign_extend y bit_count = y)
      ∧ (x < 2 ^ bit_count → y < 2 ^ bit_count →
        sign_extend x bit_count = sign_extend y bit_count
          ∧ ∀ i, bit_count ≤ i → i < 16 →
              (sign_extend x bit_count).testBit i = x.testBit (bit_count - 1)) := by
  have hbit : y.testBit (bit_count - 1) = x.testBit (bit_count - 1) :=
    (testBit_eq_of_mod_eq x y bit_count (bit_count - 1) hxy (by omega)).symm
  have hset : x.testBit (bit_count - 1) = true →
      sign_extend x bit_count = sign_extend y bit_count
        ∧ ∀ i, bit_count ≤ i → i < 16 →
            (sign_extend x bit_count).testBit i = x.testBit (bit_count - 1) := by
    intro hs
    have hs' : y.testBit (bit_count - 1) = true := by rw [hbit]; exact hs
    refine ⟨Nat.eq_of_testBit_eq fun i => ?_, fun i hi h16 => ?_⟩
    · rw [testBit_sign_extend_of_set x bit_count i h2 hs,
        testBit_sign_extend_of_set y bit_count i h2 hs']
      by_cases hi : i < bit_count
      · simp only [hi, if_true]
        exact testBit_eq_of_mod_eq x y bit_count i hxy hi
      · simp only [hi, if_false]
    · rw [testBit_sign_extend_of_set x bit_count i h2 hs, hs]
      have : ¬ i < bit_count := by omega
      simp [this, h16]
  refine ⟨hset, ?_, ?_⟩
  · intro hc
    exact ⟨sign_extend_of_clear x bit_count hc,
      sign_extend_of_clear y bit_count (by rw [hbit]; exact hc)⟩
  · intro hxs hys
    by_cases hs : x.testBit (bit_count - 1) = true
    · exact hset hs
    · have hc : x.testBit (bit_count - 1) = false := by simpa using hs
      have hxe : x = y := by
        rw [← Nat.mod_eq_of_lt hxs, ← Nat.mod_eq_of_lt hys]; exact hxy
      refine ⟨by rw [hxe], fun i hi _ => ?_⟩
      rw [sign_extend_of_clear x bit_count hc, hc]
      exact Nat.testBit_lt_two_pow
        (Nat.lt_of_lt_of_le hxs (Nat.pow_le_pow_right (by decide) hi))

/-- The claim C18 fails when bit `bit_count - 1` is clear and higher bits of
the argument are set: 0x20 and 0 agree on their low 5 bits, yet
`sign_extend(0x20, 5) = 0x20` and `sign_extend(0, 5) = 0`, and bit 5 of the
first result is 1 although bit 4 of the argument is 0. -/
theorem sign_extend_keeps_high_bits :
    (1 ≤ 5 ∧ 5 ≤ 15 ∧ 0x20 < 65536 ∧ 0 < 65536 ∧ 0x20 % 2 ^ 5 = 0 % 2 ^ 5)
      ∧ sign_extend 0x20 5 = 0x20
      ∧ sign_extend 0 5 = 0
      ∧ sign_extend 0x20 5 ≠ sign_extend 0 5
      ∧ (sign_extend 0x20 5).testBit 5 = true
      ∧ (0x20).testBit 4 = false := by
  decide

/-- Instances of C18 as amended: 0xFFFF and 0x001F agree on their low 5 bits
and have bit 4 set, so both extend to 0xFFFF; 0x0020 has bit 4 clear and is
returned unchanged. -/
theorem sign_extend_low_bits_witness :
    (1 ≤ 5 ∧ 5 ≤ 15 ∧ 0xFFFF % 2 ^ 5 = 0x1F % 2 ^ 5 ∧ 0x20 % 2 ^ 5 = 0 % 2 ^ 5)
      ∧ sign_extend 0xFFFF 5 = sign_extend 0x1F 5
      ∧ sign_extend 0x20 5 = 0x20 := by
  refine ⟨by decide, ?_, ?_⟩
  · exact ((sign_extend_low_bits 5 0xFFFF 0x1F (by decide) (by decide)
      (by decide)).1 (by decide)).1
  · exact ((sign_extend_low_bits 5 0x20 0 (by decide) (by decide)
      (by decide)).2.1 (by decide)).1

end VM
